import Mathlib

/-! # ChefKnifeStudios.Tui : form state machines and navigation controller

A shallow embedding of `views/lunch_order.go`, `views/office_tally.go`,
`main.go` and `db/*.go`, followed by the properties proved about them.

Conventions of the embedding

* Go `string` is `String`; Go `int` / `int64` is `Int` (the only arithmetic on
  them is `focusIndex++` / `focusIndex--` under a guard that excludes overflow,
  and the 64-bit checks of `strconv.ParseInt`, which are written out).
* A method with a pointer receiver returns the updated receiver.
* A slice is a `List`; indexing out of range panics in Go, so every operation
  that indexes `metadataInputs` returns an `Option`, `none` being the panic.
* `tea.Msg` is `Msg`: a key message is identified by `msg.String()`, every
  other message is `Msg.other`.
* The `tea.Cmd` component of the results (cursor blink, quit) is dropped.
* The collaborators that are not part of the sources (the `textinput`
  component's key handling, the home menu, the SQL engine and the clock) are
  parameters: `Editor` and `Env`.
-/

namespace Tui

/-! ## Messages -/

/-- The `tea.Msg` values seen by the program. -/
inductive Msg where
  /-- A `tea.KeyMsg`, named by `msg.String()`. -/
  | key (name : String)
  /-- Any message that is not a key message. -/
  | other (tag : Nat)
  deriving DecidableEq, Repr

/-! ## `strings.TrimSpace` -/

/-- Go `unicode.IsSpace`: the Latin-1 spaces and the other code points with the
`White_Space` property. -/
def isSpace (c : Char) : Bool :=
  let r := c.toNat
  if r ≤ 0xFF then
    r = 0x09 || r = 0x0A || r = 0x0B || r = 0x0C || r = 0x0D || r = 0x20 || r = 0x85 || r = 0xA0
  else
    r = 0x1680 || (0x2000 ≤ r && r ≤ 0x200A) || r = 0x2028 || r = 0x2029 || r = 0x202F
      || r = 0x205F || r = 0x3000

/-- Go `strings.TrimSpace`: leading and trailing white space removed. -/
def TrimSpace (s : String) : String :=
  ⟨((s.data.dropWhile isSpace).reverse.dropWhile isSpace).reverse⟩

/-! ## `strconv.ParseInt(s, 10, 64)` -/

/-- The two `strconv.NumError` causes. -/
inductive NumError where
  | ErrSyntax
  | ErrRange
  deriving DecidableEq, Repr

deriving instance DecidableEq for Except

/-- The digit loop of `strconv.ParseUint` for base 10 and 64 bits, `n` being
the accumulator. `cutoff = maxUint64/10 + 1`; the sum is taken modulo `2^64`
as in Go. -/
def parseUintLoop : List Char → Nat → Except NumError Nat
  | [], n => .ok n
  | c :: cs, n =>
    if 48 ≤ c.toNat ∧ c.toNat ≤ 57 then
      let d := c.toNat - 48
      if n ≥ (2 ^ 64 - 1) / 10 + 1 then .error .ErrRange
      else
        let n10 := n * 10
        let n1 := (n10 + d) % 2 ^ 64
        if n1 < n10 ∨ n1 > 2 ^ 64 - 1 then .error .ErrRange
        else parseUintLoop cs n1
    else .error .ErrSyntax

/-- Go `strconv.ParseUint(s, 10, 64)`. -/
def ParseUint (s : List Char) : Except NumError Nat :=
  if s = [] then .error .ErrSyntax else parseUintLoop s 0

/-- Conversion to `int64` (two's complement wrap-around). -/
def wrapInt64 (z : Int) : Int := (z + 2 ^ 63) % 2 ^ 64 - 2 ^ 63

/-- Go `strconv.ParseInt(s, 10, 64)`. On a range error `ParseUint` yields the
maximal value and the sign checks below turn it into a range error again. -/
def ParseInt (s : String) : Except NumError Int :=
  match s.data with
  | [] => .error .ErrSyntax
  | c :: cs =>
    let neg : Bool := c = '-'
    let body := if c = '+' ∨ c = '-' then cs else c :: cs
    match ParseUint body with
    | .error .ErrSyntax => .error .ErrSyntax
    | r =>
      let un : Nat := match r with
        | .ok n => n
        | .error _ => 2 ^ 64 - 1
      if neg = false ∧ un ≥ 2 ^ 63 then .error .ErrRange
      else if neg = true ∧ un > 2 ^ 63 then .error .ErrRange
      else
        let n := wrapInt64 un
        .ok (if neg then wrapInt64 (-n) else n)

/-! ### What "a base-10 signed 64-bit integer" means (specification side) -/

/-- Value of a string of decimal digits, most significant first. -/
def digitsValue (cs : List Char) : Nat :=
  cs.foldl (fun a c => 10 * a + (c.toNat - 48)) 0

/-- Whether a string is an optional sign followed by at least one decimal digit,
and then the integer it denotes. -/
def decimalInt (s : List Char) : Option Int :=
  let neg : Bool := s.head? = some '-'
  let body := if s.head? = some '+' ∨ s.head? = some '-' then s.tail else s
  if body ≠ [] ∧ body.all (fun c => 48 ≤ c.toNat && c.toNat ≤ 57) then
    some (if neg then -(digitsValue body : Int) else (digitsValue body : Int))
  else none

/-- The text `s` is a base-10 numeral of the signed 64-bit integer `n`. -/
def IsInt64Decimal (s : String) (n : Int) : Prop :=
  decimalInt s.data = some n ∧ -(2 : Int) ^ 63 ≤ n ∧ n < (2 : Int) ^ 63

instance (s : String) (n : Int) : Decidable (IsInt64Decimal s n) := by
  unfold IsInt64Decimal; infer_instance

/-! ## The `textinput` component -/

/-- The part of `textinput.Model` the forms depend on: the text, the cursor
position, the focus flag and the character limit. -/
structure TextInput where
  value : String
  pos : Nat
  focus : Bool
  CharLimit : Nat
  deriving DecidableEq, Repr

/-- The key handling of a focused `textinput.Model` (insertion, deletion,
cursor movement): from the component and the message to the new text and
cursor position. It belongs to the `bubbles` library and is a parameter. -/
abbrev Editor := TextInput → Msg → String × Nat

namespace TextInput

/-- Go `textinput.New()` followed by the assignment of `CharLimit`. -/
def New (charLimit : Nat) : TextInput :=
  { value := "", pos := 0, focus := false, CharLimit := charLimit }

/-- Go `Value()`. -/
def Value (t : TextInput) : String := t.value

/-- Go `Focus()`. -/
def Focus (t : TextInput) : TextInput := { t with focus := true }

/-- Go `Blur()`. -/
def Blur (t : TextInput) : TextInput := { t with focus := false }

/-- Go `SetValue(s)`: the text is cut at `CharLimit` and the cursor is moved
to the end when it was at the start of an empty text or lies past the end. -/
def SetValue (t : TextInput) (s : String) : TextInput :=
  let empty := t.value.data.length = 0
  let v : List Char :=
    if t.CharLimit > 0 ∧ s.data.length > t.CharLimit then s.data.take t.CharLimit else s.data
  let p := if (t.pos = 0 ∧ empty) ∨ t.pos > v.length then v.length else t.pos
  { t with value := ⟨v⟩, pos := p }

/-- Go `Update(msg)`: a component that is not focused ignores the message; a
focused one edits its text and cursor, its focus flag and limit stay. -/
def Update (ed : Editor) (t : TextInput) (msg : Msg) : TextInput :=
  if t.focus = false then t
  else { t with value := (ed t msg).1, pos := (ed t msg).2 }

end TextInput

/-- A small line editor used for the worked examples: a key whose name is one
character inserts it at the cursor (unless the limit is reached), `backspace`
removes the character before the cursor, anything else changes nothing. -/
def lineEdit : Editor := fun t msg =>
  match msg with
  | .key k =>
    if k = "backspace" then
      (⟨t.value.data.take (t.pos - 1) ++ t.value.data.drop t.pos⟩, t.pos - 1)
    else if k.data.length = 1 ∧ (t.CharLimit = 0 ∨ t.value.data.length < t.CharLimit) then
      (⟨t.value.data.take t.pos ++ k.data ++ t.value.data.drop t.pos⟩, t.pos + 1)
    else (t.value, t.pos)
  | .other _ => (t.value, t.pos)

/-! ## `json.Marshal` of a `map[string]string` -/

/-- A Go `map[string]string`: an association list without repeated keys. -/
abbrev GoMap := List (String × String)

/-- Go `data[key] = val`. -/
def GoMap.set : GoMap → String → String → GoMap
  | [], k, v => [(k, v)]
  | (k0, v0) :: rest, k, v =>
    if k0 = k then (k, v) :: rest else (k0, v0) :: GoMap.set rest k v

/-- Go `data[key]` with the presence flag. -/
def GoMap.get? : GoMap → String → Option String
  | [], _ => none
  | (k0, v0) :: rest, k => if k0 = k then some v0 else GoMap.get? rest k

/-- Hexadecimal digit, lower case. -/
def hexDigit (n : Nat) : Char :=
  if n < 10 then Char.ofNat (48 + n) else Char.ofNat (87 + n)

/-- How `encoding/json` writes one character of a string (HTML escaping on). -/
def jsonEscape (c : Char) : List Char :=
  let r := c.toNat
  let bs := Char.ofNat 92
  if r = 34 ∨ r = 92 then [bs, c]
  else if r = 8 then [bs, 'b']
  else if r = 12 then [bs, 'f']
  else if r = 10 then [bs, 'n']
  else if r = 13 then [bs, 'r']
  else if r = 9 then [bs, 't']
  else if r < 32 ∨ r = 60 ∨ r = 62 ∨ r = 38 then
    [bs, 'u', '0', '0', hexDigit (r / 16), hexDigit (r % 16)]
  else if r = 0x2028 ∨ r = 0x2029 then
    [bs, 'u', '2', '0', '2', hexDigit (r % 16)]
  else [c]

/-- A JSON string literal. -/
def jsonString (s : String) : List Char :=
  [Char.ofNat 34] ++ s.data.flatMap jsonEscape ++ [Char.ofNat 34]

/-- Byte-wise order of two strings (on valid UTF-8 it is the order of the code
points). -/
def keyLess : List Char → List Char → Bool
  | [], [] => false
  | [], _ :: _ => true
  | _ :: _, [] => false
  | a :: as, b :: bs =>
    if a.toNat < b.toNat then true
    else if b.toNat < a.toNat then false
    else keyLess as bs

/-- Insertion into a list of entries sorted by key. -/
def insertByKey (e : String × String) : GoMap → GoMap
  | [] => [e]
  | x :: xs => if keyLess e.1.data x.1.data then e :: x :: xs else x :: insertByKey e xs

/-- The entries of a map sorted by key, the order in which `json.Marshal` writes
them. -/
def sortByKey (m : GoMap) : GoMap := m.foldr insertByKey []

/-- The entries `"k":"v"` separated by commas. -/
def jsonEntries : GoMap → List Char
  | [] => []
  | [(k, v)] => jsonString k ++ [':'] ++ jsonString v
  | (k, v) :: rest => jsonString k ++ [':'] ++ jsonString v ++ [','] ++ jsonEntries rest

/-- Go `json.Marshal(data)` for `data : map[string]string` (it cannot fail). -/
def jsonMarshal (m : GoMap) : String :=
  ⟨[Char.ofNat 123] ++ jsonEntries (sortByKey m) ++ [Char.ofNat 125]⟩

/-! ## Slices -/

/-- Go `xs[i]`; `none` is the index-out-of-range panic. -/
def sliceGet {α : Type} (xs : List α) (i : Int) : Option α :=
  if i < 0 then none else xs[i.toNat]?

/-- Go `xs[i] = f(xs[i])` (a pointer-receiver method called on `xs[i]`); `none`
is the index-out-of-range panic. -/
def sliceApply {α : Type} (xs : List α) (i : Int) (f : α → α) : Option (List α) :=
  match sliceGet xs i with
  | none => none
  | some x => some (xs.set i.toNat (f x))

/-! ## `views/lunch_order.go` -/

/-- Go `metadataKeys`. -/
def metadataKeys : List String :=
  [ "score (1-10)",
    "food ordered",
    "order again?",
    "visit outside of work?",
    "notes" ]

/-- Go `LunchOrderModel`. Phase 0 is the restaurant, phase 1 the metadata. -/
structure LunchOrderModel where
  phase : Int
  restaurantInput : TextInput
  restaurant : String
  metadataInputs : List TextInput
  focusIndex : Int
  submitted : Bool
  deriving DecidableEq, Repr

/-- Go `NewLunchOrderModel`. -/
def NewLunchOrderModel : LunchOrderModel :=
  { phase := 0
    restaurantInput := TextInput.New 156
    restaurant := ""
    metadataInputs := metadataKeys.map (fun _ => TextInput.New 256)
    focusIndex := 0
    submitted := false }

namespace LunchOrderModel

/-- The three statements shared by the navigation cases of `Update`:
`metadataInputs[focusIndex].Blur()`, then `focusIndex++` or `focusIndex--`
(`delta` is `1` or `-1`), then `metadataInputs[focusIndex].Focus()`. -/
def moveFocus (m : LunchOrderModel) (delta : Int) : Option LunchOrderModel :=
  (sliceApply m.metadataInputs m.focusIndex TextInput.Blur).bind fun blurred =>
    (sliceApply blurred (m.focusIndex + delta) TextInput.Focus).bind fun focused =>
      some { m with metadataInputs := focused, focusIndex := m.focusIndex + delta }

/-- The end of `Update`, "Update the active input". -/
def updateActiveInput (ed : Editor) (m : LunchOrderModel) (msg : Msg) : Option LunchOrderModel :=
  if m.phase = 0 then
    some { m with restaurantInput := m.restaurantInput.Update ed msg }
  else
    (sliceApply m.metadataInputs m.focusIndex (fun t => t.Update ed msg)).bind fun ins =>
      some { m with metadataInputs := ins }

/-- Go `LunchOrderModel.Update`. A navigation case whose guard fails leaves the
`switch` and reaches the update of the active input. -/
def Update (ed : Editor) (m : LunchOrderModel) (msg : Msg) : Option LunchOrderModel :=
  match msg with
  | .key k =>
    if k = "enter" then
      if m.phase = 0 then
        let m := { m with restaurant := m.restaurantInput.Value }
        if m.restaurant = "" then some m
        else
          let m := { m with phase := 1, restaurantInput := m.restaurantInput.Blur }
          (sliceApply m.metadataInputs 0 TextInput.Focus).bind fun ins =>
            some { m with metadataInputs := ins }
      else
        if m.focusIndex < (m.metadataInputs.length : Int) - 1 then moveFocus m 1
        else some { m with submitted := true }
    else if k = "up" then
      if m.phase = 1 ∧ m.focusIndex > 0 then moveFocus m (-1)
      else updateActiveInput ed m msg
    else if k = "down" then
      if m.phase = 1 ∧ m.focusIndex < (m.metadataInputs.length : Int) - 1 then moveFocus m 1
      else updateActiveInput ed m msg
    else if k = "tab" then
      if m.phase = 1 ∧ m.focusIndex < (m.metadataInputs.length : Int) - 1 then moveFocus m 1
      else updateActiveInput ed m msg
    else if k = "shift+tab" then
      if m.phase = 1 ∧ m.focusIndex > 0 then moveFocus m (-1)
      else updateActiveInput ed m msg
    else updateActiveInput ed m msg
  | .other _ => updateActiveInput ed m msg

/-- Go `(*LunchOrderModel).Focus`. -/
def Focus (m : LunchOrderModel) : Option LunchOrderModel :=
  if m.phase = 0 then some { m with restaurantInput := m.restaurantInput.Focus }
  else
    (sliceApply m.metadataInputs m.focusIndex TextInput.Focus).bind fun ins =>
      some { m with metadataInputs := ins }

/-- Go `(*LunchOrderModel).Blur`. -/
def Blur (m : LunchOrderModel) : Option LunchOrderModel :=
  if m.phase = 0 then some { m with restaurantInput := m.restaurantInput.Blur }
  else
    (sliceApply m.metadataInputs m.focusIndex TextInput.Blur).bind fun ins =>
      some { m with metadataInputs := ins }

/-- Go `IsSubmitted`. -/
def IsSubmitted (m : LunchOrderModel) : Bool := m.submitted

/-- Go `SubmittedRestaurant`. -/
def SubmittedRestaurant (m : LunchOrderModel) : String := m.restaurant

/-- The loop of `SubmittedMetadata` over `metadataKeys` from index `i` on, `data`
being the map built so far. -/
def collectMetadata (inputs : List TextInput) : List String → Nat → GoMap → Option GoMap
  | [], _, data => some data
  | key :: keys, i, data =>
    match inputs[i]? with
    | none => none
    | some t =>
      let val := TrimSpace t.Value
      collectMetadata inputs keys (i + 1) (if val ≠ "" then data.set key val else data)

/-- The map `data` that `SubmittedMetadata` builds before serializing it. -/
def submittedData (m : LunchOrderModel) : Option GoMap :=
  collectMetadata m.metadataInputs metadataKeys 0 []

/-- Go `SubmittedMetadata`. -/
def SubmittedMetadata (m : LunchOrderModel) : Option String :=
  (submittedData m).bind fun data =>
    if data.length = 0 then some "" else some (jsonMarshal data)

/-- Go `(*LunchOrderModel).Clear`. -/
def Clear (m : LunchOrderModel) : LunchOrderModel :=
  { m with
    phase := 0
    restaurant := ""
    restaurantInput := m.restaurantInput.SetValue ""
    focusIndex := 0
    submitted := false
    metadataInputs := m.metadataInputs.map (fun t => (t.SetValue "").Blur) }

end LunchOrderModel

/-! ## `views/office_tally.go` -/

/-- Go `OfficeTallyModel`. Phase 0 is the restaurant, phase 1 the tally. -/
structure OfficeTallyModel where
  phase : Int
  restaurantInput : TextInput
  restaurant : String
  tallyInput : TextInput
  tally : Int
  submitted : Bool
  deriving DecidableEq, Repr

/-- Go `NewOfficeTallyModel`. -/
def NewOfficeTallyModel : OfficeTallyModel :=
  { phase := 0
    restaurantInput := TextInput.New 256
    restaurant := ""
    tallyInput := TextInput.New 10
    tally := 0
    submitted := false }

namespace OfficeTallyModel

/-- The end of `Update`, "Update the active input". -/
def updateActiveInput (ed : Editor) (m : OfficeTallyModel) (msg : Msg) : OfficeTallyModel :=
  if m.phase = 0 then { m with restaurantInput := m.restaurantInput.Update ed msg }
  else { m with tallyInput := m.tallyInput.Update ed msg }

/-- Go `OfficeTallyModel.Update`. -/
def Update (ed : Editor) (m : OfficeTallyModel) (msg : Msg) : OfficeTallyModel :=
  match msg with
  | .key k =>
    if k = "enter" then
      if m.phase = 0 then
        let m := { m with restaurant := m.restaurantInput.Value }
        if m.restaurant = "" then m
        else
          { m with
            phase := 1
            restaurantInput := m.restaurantInput.Blur
            tallyInput := m.tallyInput.Focus }
      else
        let tallyStr := TrimSpace m.tallyInput.Value
        if tallyStr = "" then m
        else
          match ParseInt tallyStr with
          | .error _ => m
          | .ok tallyNum => { m with tally := tallyNum, submitted := true }
    else updateActiveInput ed m msg
  | .other _ => updateActiveInput ed m msg

/-- Go `(*OfficeTallyModel).Focus`. -/
def Focus (m : OfficeTallyModel) : OfficeTallyModel :=
  if m.phase = 0 then { m with restaurantInput := m.restaurantInput.Focus }
  else { m with tallyInput := m.tallyInput.Focus }

/-- Go `(*OfficeTallyModel).Blur`. -/
def Blur (m : OfficeTallyModel) : OfficeTallyModel :=
  if m.phase = 0 then { m with restaurantInput := m.restaurantInput.Blur }
  else { m with tallyInput := m.tallyInput.Blur }

/-- Go `IsSubmitted`. -/
def IsSubmitted (m : OfficeTallyModel) : Bool := m.submitted

/-- Go `SubmittedRestaurant`. -/
def SubmittedRestaurant (m : OfficeTallyModel) : String := m.restaurant

/-- Go `SubmittedTally`. -/
def SubmittedTally (m : OfficeTallyModel) : Int := m.tally

/-- Go `(*OfficeTallyModel).Clear`. -/
def Clear (m : OfficeTallyModel) : OfficeTallyModel :=
  { m with
    phase := 0
    restaurant := ""
    restaurantInput := m.restaurantInput.SetValue ""
    tallyInput := m.tallyInput.SetValue ""
    tally := 0
    submitted := false }

end OfficeTallyModel

/-! ## The collaborators of the controller -/

/-- An argument of a SQL statement. -/
inductive SqlArg where
  | text (s : String)
  | int (n : Int)
  deriving DecidableEq, Repr

/-- A `sql.Result`, as far as `LastInsertId()` reads it: the identifier or the
error that call returns. -/
structure SqlResult where
  LastInsertId : Except String Int

/-- The collaborators of `main.go` that are not part of the sources: the key
handling of the text inputs, the home menu (`views.HomeModel` with its
`Update`, `Choice` and `Clear`), the SQL engine behind `*sql.DB` (`Exec`, with
the state of the database made explicit) and the clock. -/
structure Env where
  Home : Type
  DB : Type
  edit : Editor
  NewHomeModel : Home
  homeUpdate : Home → Msg → Home
  homeChoice : Home → String
  homeClear : Home → Home
  exec : DB → String → List SqlArg → DB × Except String SqlResult
  now : DB → String

/-! ## `db/lunch_order.go`, `db/office_tally.go` -/

namespace db

/-- Go `db.LunchOrder` (the creation time, which `InsertLunchOrder` does not
read, is left out). -/
structure LunchOrder where
  IID : Int
  SRestaurant : String
  JMetadata : String
  BIsDeleted : Bool
  deriving DecidableEq, Repr

/-- Go `db.OfficeTally` (without the creation time). -/
structure OfficeTally where
  IID : Int
  SRestaurant : String
  ITally : Int
  BIsDeleted : Bool
  deriving DecidableEq, Repr

/-- Go `boolToInt`. -/
def boolToInt (b : Bool) : Int := if b then 1 else 0

/-- Go `InsertLunchOrder`: the new state of the database and the identifier or
the error. -/
def InsertLunchOrder (E : Env) (d : E.DB) (order : LunchOrder) : E.DB × Except String Int :=
  let createdOn := E.now d
  match E.exec d
      "INSERT INTO lunchorder (srestaurant, jmetadata, dtcreatedon, bisdeleted) VALUES (?, ?, ?, ?)"
      [.text order.SRestaurant, .text order.JMetadata, .text createdOn,
        .int (boolToInt order.BIsDeleted)] with
  | (d1, .error err) => (d1, .error err)
  | (d1, .ok result) => (d1, result.LastInsertId)

/-- Go `InsertOfficeTally`. -/
def InsertOfficeTally (E : Env) (d : E.DB) (tally : OfficeTally) : E.DB × Except String Int :=
  let createdOn := E.now d
  match E.exec d
      "INSERT INTO officetally (srestaurant, itally, dtcreatedon, bisdeleted) VALUES (?, ?, ?, ?)"
      [.text tally.SRestaurant, .int tally.ITally, .text createdOn,
        .int (boolToInt tally.BIsDeleted)] with
  | (d1, .error err) => (d1, .error err)
  | (d1, .ok result) => (d1, result.LastInsertId)

end db

/-! ## `main.go` -/

/-- Go `viewState`. -/
inductive viewState where
  | viewHome
  | viewLunchOrder
  | viewOfficeTally
  deriving DecidableEq, Repr

/-- Go `model`. `err` is `none` for `nil`. -/
structure model (E : Env) where
  currentView : viewState
  home : E.Home
  lunchOrder : LunchOrderModel
  officeTally : OfficeTallyModel
  database : E.DB
  err : Option String

/-- Go `initialModel`. -/
def initialModel (E : Env) (database : E.DB) : model E :=
  { currentView := .viewHome
    home := E.NewHomeModel
    lunchOrder := NewLunchOrderModel
    officeTally := NewOfficeTallyModel
    database := database
    err := none }

namespace model

/-- The second `switch` of `Update`, on `m.currentView`. -/
def dispatch (E : Env) (m : model E) (msg : Msg) : Option (model E) :=
  match m.currentView with
  | .viewHome =>
    let m := { m with home := E.homeUpdate m.home msg }
    let choice := E.homeChoice m.home
    if choice ≠ "" then
      let m := { m with home := E.homeClear m.home }
      if choice = "Post your own lunch order" then
        let m := { m with currentView := .viewLunchOrder }
        m.lunchOrder.Focus.bind fun lo => some { m with lunchOrder := lo }
      else if choice = "Post the office tally" then
        let m := { m with currentView := .viewOfficeTally }
        some { m with officeTally := m.officeTally.Focus }
      else some m
    else some m
  | .viewLunchOrder =>
    (m.lunchOrder.Update E.edit msg).bind fun lo =>
      let m := { m with lunchOrder := lo }
      if m.lunchOrder.IsSubmitted then
        m.lunchOrder.SubmittedMetadata.bind fun metadata =>
          let order : db.LunchOrder :=
            { IID := 0
              SRestaurant := m.lunchOrder.SubmittedRestaurant
              JMetadata := metadata
              BIsDeleted := false }
          let r := db.InsertLunchOrder E m.database order
          let m := { m with database := r.1 }
          let m := match r.2 with
            | .error err => { m with err := some err }
            | .ok _ => m
          some { m with
            lunchOrder := m.lunchOrder.Clear
            currentView := .viewHome
            home := E.homeClear m.home }
      else some m
  | .viewOfficeTally =>
    let m := { m with officeTally := m.officeTally.Update E.edit msg }
    if m.officeTally.IsSubmitted then
      let tally : db.OfficeTally :=
        { IID := 0
          SRestaurant := m.officeTally.SubmittedRestaurant
          ITally := m.officeTally.SubmittedTally
          BIsDeleted := false }
      let r := db.InsertOfficeTally E m.database tally
      let m := { m with database := r.1 }
      let m := match r.2 with
        | .error err => { m with err := some err }
        | .ok _ => m
      some { m with officeTally := m.officeTally.Clear.Focus }
    else some m

/-- Go `model.Update`; `none` is a panic of a form. The first `switch` handles
the global keys, everything else reaches the `switch` on the current view. -/
def Update (E : Env) (m : model E) (msg : Msg) : Option (model E) :=
  match msg with
  | .key k =>
    if k = "ctrl+c" then some m
    else if k = "esc" then
      if m.currentView = .viewLunchOrder then
        some { m with
          lunchOrder := m.lunchOrder.Clear
          currentView := .viewHome
          home := E.homeClear m.home }
      else if m.currentView = .viewOfficeTally then
        some { m with
          officeTally := m.officeTally.Clear
          currentView := .viewHome
          home := E.homeClear m.home }
      else dispatch E m msg
    else dispatch E m msg
  | .other _ => dispatch E m msg

/-- The controller after a sequence of messages, from left to right. -/
def run (E : Env) : model E → List Msg → Option (model E)
  | m, [] => some m
  | m, msg :: rest => (Update E m msg).bind fun m1 => run E m1 rest

end model

/-! ## A concrete environment for the worked examples -/

/-- Modelled from the spec: the home menu, `views/home.go`, is not among the
sources. The spec gives it exactly two options; here `up` and `down` move a
cursor over them and `enter` chooses the option under the cursor. -/
structure HomeModel where
  cursor : Nat
  choice : String
  deriving DecidableEq, Repr

namespace HomeModel

/-- The two options of the menu, as `main.go` compares them. -/
def choices : List String := ["Post your own lunch order", "Post the office tally"]

/-- The menu on start. -/
def New : HomeModel := { cursor := 0, choice := "" }

/-- Key handling of the menu. -/
def Update (h : HomeModel) (msg : Msg) : HomeModel :=
  match msg with
  | .key k =>
    if k = "up" then { h with cursor := h.cursor - 1 }
    else if k = "down" then { h with cursor := min (h.cursor + 1) (choices.length - 1) }
    else if k = "enter" then { h with choice := choices.getD h.cursor "" }
    else h
  | .other _ => h

/-- The option chosen, empty when none is. -/
def Choice (h : HomeModel) : String := h.choice

/-- Forgets the choice. -/
def Clear (h : HomeModel) : HomeModel := { h with choice := "" }

end HomeModel

/-- An environment for the worked examples: the line editor, the menu above, a
database that records the statements executed and whose `n`-th statement
succeeds with identifier `n`, and a clock that stands still. -/
def demoEnv : Env :=
  { Home := HomeModel
    DB := List (String × List SqlArg)
    edit := lineEdit
    NewHomeModel := HomeModel.New
    homeUpdate := HomeModel.Update
    homeChoice := HomeModel.Choice
    homeClear := HomeModel.Clear
    exec := fun d q args => (d ++ [(q, args)], .ok { LastInsertId := .ok (d.length + 1) })
    now := fun _ => "2024-01-01T00:00:00Z" }

/-! ## Auxiliary notions used by the statements -/

/-- The keys paired with the trimmed values of the inputs, the pairs with an
empty value dropped. -/
def nonEmptyPairs (keys : List String) (inputs : List TextInput) : GoMap :=
  (keys.zip (inputs.map fun t => TrimSpace t.Value)).filter fun p => p.2 ≠ ""

/-- A call of one of the four operations a form offers to its owner. -/
inductive FormCall where
  | update (msg : Msg)
  | focus
  | blur
  | clear
  deriving DecidableEq, Repr

/-- One call on a lunch-order session; `none` is a panic. -/
def LunchOrderModel.call (ed : Editor) (m : LunchOrderModel) : FormCall → Option LunchOrderModel
  | .update msg => m.Update ed msg
  | .focus => m.Focus
  | .blur => m.Blur
  | .clear => some m.Clear

/-- A sequence of calls on a lunch-order session, from left to right. -/
def LunchOrderModel.calls (ed : Editor) : LunchOrderModel → List FormCall → Option LunchOrderModel
  | m, [] => some m
  | m, c :: rest => (m.call ed c).bind fun m1 => LunchOrderModel.calls ed m1 rest

/-- One call on an office-tally session. -/
def OfficeTallyModel.call (ed : Editor) (m : OfficeTallyModel) : FormCall → OfficeTallyModel
  | .update msg => m.Update ed msg
  | .focus => m.Focus
  | .blur => m.Blur
  | .clear => m.Clear

/-- A sequence of calls on an office-tally session, from left to right. -/
def OfficeTallyModel.calls (ed : Editor) : OfficeTallyModel → List FormCall → OfficeTallyModel
  | m, [] => m
  | m, c :: rest => OfficeTallyModel.calls ed (m.call ed c) rest

/-- The invariant of the lunch-order sessions: the five metadata inputs are
there, the focus index points at one of them, a submitted session is past
phase 0, and past phase 0 the captured restaurant is not empty. -/
def LunchOrderModel.Inv (m : LunchOrderModel) : Prop :=
  m.metadataInputs.length = 5 ∧ 0 ≤ m.focusIndex ∧ m.focusIndex < 5 ∧
    (m.submitted = true → m.phase ≠ 0) ∧ (m.phase ≠ 0 → m.restaurant ≠ "")

/-- The invariant of the office-tally sessions: a submitted session is past
phase 0, and past phase 0 the captured restaurant is not empty. -/
def OfficeTallyModel.Inv (m : OfficeTallyModel) : Prop :=
  (m.submitted = true → m.phase ≠ 0) ∧ (m.phase ≠ 0 → m.restaurant ≠ "")

/-- The controller of the worked examples on the lunch-order form, restaurant
"Torched Hop" captured and the last metadata field focused. -/
def lunchAtLastField : model demoEnv :=
  { currentView := .viewLunchOrder
    home := HomeModel.New
    lunchOrder :=
      { phase := 1
        restaurantInput := { value := "Torched Hop", pos := 11, focus := false, CharLimit := 156 }
        restaurant := "Torched Hop"
        metadataInputs :=
          [TextInput.New 256, TextInput.New 256, TextInput.New 256, TextInput.New 256,
            (TextInput.New 256).Focus]
        focusIndex := 4
        submitted := false }
    officeTally := NewOfficeTallyModel
    database := []
    err := none }

/-- The controller of the worked examples on the office-tally form, restaurant
"Deli" captured and "12" typed into the tally input. -/
def tallyReady : model demoEnv :=
  { currentView := .viewOfficeTally
    home := { cursor := 1, choice := "" }
    lunchOrder := NewLunchOrderModel
    officeTally :=
      { phase := 1
        restaurantInput := { value := "Deli", pos := 4, focus := false, CharLimit := 256 }
        restaurant := "Deli"
        tallyInput := { value := "12", pos := 2, focus := true, CharLimit := 10 }
        tally := 0
        submitted := false }
    database := []
    err := none }

/-- The logical state of a fresh lunch-order session: phase 0, no captured
restaurant, empty restaurant and metadata buffers, focus index 0, not
submitted. -/
def LunchOrderModel.Fresh (m : LunchOrderModel) : Prop :=
  m.phase = 0 ∧ m.restaurant = "" ∧ m.restaurantInput.Value = "" ∧
    (∀ t ∈ m.metadataInputs, t.Value = "") ∧ m.focusIndex = 0 ∧ m.submitted = false

/-- The logical state of a fresh office-tally session: phase 0, no captured
restaurant, empty restaurant and tally buffers, stored tally 0, not submitted. -/
def OfficeTallyModel.Fresh (m : OfficeTallyModel) : Prop :=
  m.phase = 0 ∧ m.restaurant = "" ∧ m.restaurantInput.Value = "" ∧
    m.tallyInput.Value = "" ∧ m.tally = 0 ∧ m.submitted = false

/-- The invariant of the controller: the lunch-order session satisfies its
invariant, neither session is submitted, and a form that is not the current
view is fresh. -/
def model.Inv {E : Env} (m : model E) : Prop :=
  m.lunchOrder.Inv ∧ m.lunchOrder.submitted = false ∧ m.officeTally.submitted = false ∧
    (m.currentView ≠ .viewLunchOrder → m.lunchOrder.Fresh) ∧
    (m.currentView ≠ .viewOfficeTally → m.officeTally.Fresh)

/-- The environment of the worked examples with a database that refuses every
statement. -/
def failingEnv : Env :=
  { Home := HomeModel
    DB := List (String × List SqlArg)
    edit := lineEdit
    NewHomeModel := HomeModel.New
    homeUpdate := HomeModel.Update
    homeChoice := HomeModel.Choice
    homeClear := HomeModel.Clear
    exec := fun d q args => (d ++ [(q, args)], .error "database is locked")
    now := fun _ => "2024-01-01T00:00:00Z" }

/-- The controller on the lunch-order form with the last metadata field
focused, over the database that refuses every statement. -/
def lunchAtLastFieldFailing : model failingEnv :=
  { currentView := .viewLunchOrder
    home := HomeModel.New
    lunchOrder := lunchAtLastField.lunchOrder
    officeTally := NewOfficeTallyModel
    database := []
    err := none }

/-- The controller on the office-tally form with "12" typed, over the database
that refuses every statement. -/
def tallyReadyFailing : model failingEnv :=
  { currentView := .viewOfficeTally
    home := HomeModel.New
    lunchOrder := NewLunchOrderModel
    officeTally := tallyReady.officeTally
    database := []
    err := none }

/-! # Properties -/

/-! ## Lemmas on the serialization of the metadata -/

theorem jsonMarshal_ne_empty (d : GoMap) : jsonMarshal d ≠ "" := by
  intro h
  have h2 := congrArg String.data h
  simp [jsonMarshal] at h2

theorem submittedData_eq (m : LunchOrderModel) (h : m.metadataInputs.length = 5) :
    m.submittedData = some (nonEmptyPairs metadataKeys m.metadataInputs) := by
  obtain ⟨ph, ri, r, ins, fi, sub⟩ := m
  simp only at h
  match ins, h with
  | [a, b, c, d, e], _ =>
    simp only [LunchOrderModel.submittedData, LunchOrderModel.collectMetadata, metadataKeys,
      nonEmptyPairs]
    simp [List.filter]
    split_ifs <;> simp [GoMap.set, *]

theorem nonEmptyPairs_eq_nil (inputs : List TextInput) (h : inputs.length = 5) :
    nonEmptyPairs metadataKeys inputs = [] ↔ ∀ t ∈ inputs, TrimSpace t.Value = "" := by
  match inputs, h with
  | [a, b, c, d, e], _ =>
    simp [nonEmptyPairs, metadataKeys, List.filter_eq_nil_iff]

theorem SubmittedMetadata_some (m : LunchOrderModel) (h : m.metadataInputs.length = 5) :
    ∃ s, m.SubmittedMetadata = some s := by
  by_cases hz : nonEmptyPairs metadataKeys m.metadataInputs = []
  · exact ⟨"", by simp [LunchOrderModel.SubmittedMetadata, submittedData_eq m h, hz]⟩
  · exact ⟨jsonMarshal (nonEmptyPairs metadataKeys m.metadataInputs),
      by simp [LunchOrderModel.SubmittedMetadata, submittedData_eq m h, hz]⟩

/-! ## C1 -/

/-- C1, counterexample: a restaurant buffer holding one space is empty after
trimming, the session is in phase 0, and yet the enter key advances both forms
to phase 1. -/
theorem enter_on_blank_restaurant_advances :
    TrimSpace " " = "" ∧
    ({ NewLunchOrderModel with
        restaurantInput := { value := " ", pos := 1, focus := true, CharLimit := 156 } }
      : LunchOrderModel).phase = 0 ∧
    (({ NewLunchOrderModel with
        restaurantInput := { value := " ", pos := 1, focus := true, CharLimit := 156 } }
      : LunchOrderModel).Update lineEdit (.key "enter")).map (fun m => m.phase) = some 1 ∧
    (({ NewOfficeTallyModel with
        restaurantInput := { value := " ", pos := 1, focus := true, CharLimit := 256 } }
      : OfficeTallyModel).Update lineEdit (.key "enter")).phase = 1 := by
  decide

/-- C1, amended: for both forms, when the session is in phase 0 and the value
of the restaurant buffer is the empty string (no trimming), the enter key
leaves the phase at 0; the session is unchanged but for the captured
restaurant, which is the empty string. -/
theorem enter_on_empty_restaurant_keeps_phase (ed : Editor) :
    (∀ m : LunchOrderModel, m.phase = 0 → m.restaurantInput.Value = "" →
      ∃ m1, m.Update ed (.key "enter") = some m1 ∧ m1.phase = 0 ∧
        m1 = { m with restaurant := "" }) ∧
    (∀ m : OfficeTallyModel, m.phase = 0 → m.restaurantInput.Value = "" →
      (m.Update ed (.key "enter")).phase = 0 ∧
        m.Update ed (.key "enter") = { m with restaurant := "" }) := by
  refine ⟨?_, ?_⟩
  · intro m hp hv
    refine ⟨{ m with restaurant := "" }, ?_, hp, rfl⟩
    simp [LunchOrderModel.Update, hp, hv]
  · intro m hp hv
    simp [OfficeTallyModel.Update, hp, hv]

/-- C1, witness: the fresh sessions of both forms are in phase 0 with an empty
restaurant buffer. -/
theorem enter_on_empty_restaurant_keeps_phase_witness :
    (∃ m1, NewLunchOrderModel.Update lineEdit (.key "enter") = some m1 ∧ m1.phase = 0 ∧
        m1 = { NewLunchOrderModel with restaurant := "" }) ∧
    ((NewOfficeTallyModel.Update lineEdit (.key "enter")).phase = 0 ∧
        NewOfficeTallyModel.Update lineEdit (.key "enter")
          = { NewOfficeTallyModel with restaurant := "" }) :=
  ⟨(enter_on_empty_restaurant_keeps_phase lineEdit).1 NewLunchOrderModel rfl rfl,
   (enter_on_empty_restaurant_keeps_phase lineEdit).2 NewOfficeTallyModel rfl rfl⟩

/-! ## C2 -/

/-- C2: for every content of the five metadata fields, `SubmittedMetadata`
returns a result, and that result is the absent one (the empty string) if and
only if the value of every field is empty after trimming. -/
theorem submittedMetadata_absent_iff (m : LunchOrderModel) (h : m.metadataInputs.length = 5) :
    ∃ s, m.SubmittedMetadata = some s ∧
      (s = "" ↔ ∀ t ∈ m.metadataInputs, TrimSpace t.Value = "") := by
  have hd := submittedData_eq m h
  have hn := nonEmptyPairs_eq_nil m.metadataInputs h
  by_cases hz : nonEmptyPairs metadataKeys m.metadataInputs = []
  · refine ⟨"", ?_, ?_⟩
    · simp [LunchOrderModel.SubmittedMetadata, hd, hz]
    · simp [← hn, hz]
  · refine ⟨jsonMarshal (nonEmptyPairs metadataKeys m.metadataInputs), ?_, ?_⟩
    · simp [LunchOrderModel.SubmittedMetadata, hd, hz]
    · constructor
      · intro h0
        exact absurd h0 (jsonMarshal_ne_empty _)
      · intro hall
        exact absurd (hn.2 hall) hz

/-- C2, witness: the fresh lunch-order session, whose five fields are empty,
has absent metadata. -/
theorem submittedMetadata_absent_iff_witness :
    NewLunchOrderModel.metadataInputs.length = 5 ∧
    ∃ s, NewLunchOrderModel.SubmittedMetadata = some s ∧
      (s = "" ↔ ∀ t ∈ NewLunchOrderModel.metadataInputs, TrimSpace t.Value = "") :=
  ⟨by decide, submittedMetadata_absent_iff NewLunchOrderModel (by decide)⟩

/-! ## C3 -/

theorem nonEmptyPairs_cons (k0 : String) (ks : List String) (t : TextInput)
    (ts : List TextInput) :
    nonEmptyPairs (k0 :: ks) (t :: ts) =
      if TrimSpace t.Value ≠ "" then (k0, TrimSpace t.Value) :: nonEmptyPairs ks ts
      else nonEmptyPairs ks ts := by
  by_cases h : TrimSpace t.Value = "" <;> simp [nonEmptyPairs, List.filter, List.zip, h]

theorem get_nonEmptyPairs (keys : List String) (hnd : keys.Nodup) (inputs : List TextInput)
    (k v : String) :
    GoMap.get? (nonEmptyPairs keys inputs) k = some v ↔
      ∃ i : Nat, keys[i]? = some k ∧
        (inputs[i]?).map (fun t => TrimSpace t.Value) = some v ∧ v ≠ "" := by
  induction keys generalizing inputs with
  | nil => simp [nonEmptyPairs, GoMap.get?]
  | cons k0 ks ih =>
    cases inputs with
    | nil => simp [nonEmptyPairs, GoMap.get?]
    | cons t ts =>
      have hk0 : k0 ∉ ks := (List.nodup_cons.1 hnd).1
      have ih1 := ih (List.nodup_cons.1 hnd).2 ts
      rw [nonEmptyPairs_cons]
      constructor
      · intro hg
        by_cases ht : TrimSpace t.Value = ""
        · simp only [ht, ne_eq, not_true_eq_false, if_false] at hg
          obtain ⟨j, hj1, hj2⟩ := ih1.1 hg
          exact ⟨j + 1, by simpa using hj1, by simpa using hj2⟩
        · simp only [ht, ne_eq, not_false_eq_true, if_true, GoMap.get?] at hg
          by_cases hk : k0 = k
          · simp only [hk, if_true, Option.some.injEq] at hg
            refine ⟨0, by simp [hk], by simp [hg], ?_⟩
            rw [← hg]; exact ht
          · simp only [hk, if_false] at hg
            obtain ⟨j, hj1, hj2⟩ := ih1.1 hg
            exact ⟨j + 1, by simpa using hj1, by simpa using hj2⟩
      · rintro ⟨i, hi1, hi2, hi3⟩
        cases i with
        | zero =>
          simp only [List.getElem?_cons_zero, Option.some.injEq, Option.map_some'] at hi1 hi2
          subst hi2
          simp [hi3, GoMap.get?, hi1]
        | succ j =>
          simp only [List.getElem?_cons_succ] at hi1 hi2
          have hmem : k ∈ ks := List.mem_iff_getElem?.2 ⟨j, hi1⟩
          have hk : k0 ≠ k := fun h => hk0 (h ▸ hmem)
          have hr := ih1.2 ⟨j, hi1, hi2, hi3⟩
          by_cases ht : TrimSpace t.Value = ""
          · simpa [ht] using hr
          · simpa [ht, GoMap.get?, hk] using hr

theorem metadataKeys_nodup : metadataKeys.Nodup := by decide

/-- C3: when the five metadata fields are given and at least one of them is not
empty after trimming, the map that `SubmittedMetadata` serializes consists of
exactly the pairs of `metadataKeys[i]` with the trimmed value of field `i`, for
the fields `i` whose trimmed value is not empty: its entries are these pairs
and nothing else, a key is bound in it exactly when it is the key of such a
field, and the result is the JSON text of that map. -/
theorem submittedMetadata_exact_pairs (m : LunchOrderModel)
    (h : m.metadataInputs.length = 5)
    (hne : ∃ t ∈ m.metadataInputs, TrimSpace t.Value ≠ "") :
    ∃ data, m.submittedData = some data ∧
      data = nonEmptyPairs metadataKeys m.metadataInputs ∧
      (∀ k v, data.get? k = some v ↔
        ∃ i : Nat, metadataKeys[i]? = some k ∧
          (m.metadataInputs[i]?).map (fun t => TrimSpace t.Value) = some v ∧ v ≠ "") ∧
      m.SubmittedMetadata = some (jsonMarshal data) := by
  refine ⟨_, submittedData_eq m h, rfl, ?_, ?_⟩
  · intro k v
    exact get_nonEmptyPairs metadataKeys metadataKeys_nodup m.metadataInputs k v
  · have hz : nonEmptyPairs metadataKeys m.metadataInputs ≠ [] := by
      intro h0
      obtain ⟨t, ht, hv⟩ := hne
      exact hv ((nonEmptyPairs_eq_nil m.metadataInputs h).1 h0 t ht)
    simp [LunchOrderModel.SubmittedMetadata, submittedData_eq m h, hz]

/-- C3, witness: with only the first field set to "8" the map is exactly
"score (1-10)" bound to "8". -/
theorem submittedMetadata_exact_pairs_witness :
    ∃ data,
      ({ NewLunchOrderModel with
          metadataInputs := [{ value := "8", pos := 1, focus := true, CharLimit := 256 },
            TextInput.New 256, TextInput.New 256, TextInput.New 256, TextInput.New 256] }
        : LunchOrderModel).submittedData = some data ∧
      data = [("score (1-10)", "8")] ∧
      ({ NewLunchOrderModel with
          metadataInputs := [{ value := "8", pos := 1, focus := true, CharLimit := 256 },
            TextInput.New 256, TextInput.New 256, TextInput.New 256, TextInput.New 256] }
        : LunchOrderModel).SubmittedMetadata = some "\x7b\"score (1-10)\":\"8\"\x7d" := by
  obtain ⟨data, h1, h2, _, h4⟩ := submittedMetadata_exact_pairs
    ({ NewLunchOrderModel with
        metadataInputs := [{ value := "8", pos := 1, focus := true, CharLimit := 256 },
          TextInput.New 256, TextInput.New 256, TextInput.New 256, TextInput.New 256] })
    (by decide)
    ⟨{ value := "8", pos := 1, focus := true, CharLimit := 256 }, by decide, by decide⟩
  have h3 : data = [("score (1-10)", "8")] := by rw [h2]; decide
  refine ⟨data, h1, h3, ?_⟩
  rw [h4, h3]; decide

/-! ## Lemmas on `strconv.ParseInt` -/

theorem le_foldl_digits (cs : List Char) (a : Nat) :
    a ≤ cs.foldl (fun a c => 10 * a + (c.toNat - 48)) a := by
  induction cs generalizing a with
  | nil => simp
  | cons c cs ih =>
    simp only [List.foldl_cons]
    exact le_trans (by omega) (ih _)

theorem parseUintLoop_ok_iff (cs : List Char) (n v : Nat) (hn : n < 2 ^ 64) :
    parseUintLoop cs n = .ok v ↔
      (cs.all (fun c => 48 ≤ c.toNat && c.toNat ≤ 57) = true ∧
        cs.foldl (fun a c => 10 * a + (c.toNat - 48)) n < 2 ^ 64 ∧
        v = cs.foldl (fun a c => 10 * a + (c.toNat - 48)) n) := by
  induction cs generalizing n with
  | nil =>
    simp only [parseUintLoop, List.all_nil, List.foldl_nil, true_and, Except.ok.injEq]
    constructor
    · intro h; exact ⟨hn, h.symm⟩
    · intro h; exact h.2.symm
  | cons c cs ih =>
    have hge := le_foldl_digits cs (10 * n + (c.toNat - 48))
    by_cases hd : 48 ≤ c.toNat ∧ c.toNat ≤ 57
    · by_cases hcut : n ≥ (2 ^ 64 - 1) / 10 + 1
      · simp only [parseUintLoop, hd, hcut, and_self, if_true, List.all_cons, List.foldl_cons]
        constructor
        · intro h; cases h
        · rintro ⟨_, h2, _⟩
          norm_num at hcut h2 hge
          omega
      · by_cases hov : n * 10 + (c.toNat - 48) < 2 ^ 64
        · have hmod : (n * 10 + (c.toNat - 48)) % 2 ^ 64 = 10 * n + (c.toNat - 48) := by
            rw [Nat.mod_eq_of_lt hov]; omega
          have hlt : 10 * n + (c.toNat - 48) < 2 ^ 64 := by omega
          have hc1 : ¬ (10 * n + (c.toNat - 48) < n * 10 ∨ 10 * n + (c.toNat - 48) > 2 ^ 64 - 1) := by
            norm_num at hlt ⊢
            omega
          simp only [parseUintLoop, hd, hcut, and_self, if_true, if_false, hmod, hc1,
            List.all_cons, List.foldl_cons]
          rw [ih _ hlt]
          simp [hd.1, hd.2]
        · have hc1 : (n * 10 + (c.toNat - 48)) % 2 ^ 64 < n * 10 ∨
              (n * 10 + (c.toNat - 48)) % 2 ^ 64 > 2 ^ 64 - 1 := by
            left
            norm_num at hov hcut hd ⊢
            omega
          simp only [parseUintLoop, hd, hcut, and_self, if_true, if_false, hc1,
            List.all_cons, List.foldl_cons]
          constructor
          · intro h; cases h
          · rintro ⟨_, h2, _⟩
            norm_num at hov h2 hge
            omega
    · simp only [parseUintLoop, hd, if_false, List.all_cons]
      constructor
      · intro h; cases h
      · rintro ⟨h1, _⟩
        simp at h1
        exact absurd ⟨h1.1.1, h1.1.2⟩ hd

theorem ParseUint_ok_iff (body : List Char) (un : Nat) :
    ParseUint body = .ok un ↔
      (body ≠ [] ∧ body.all (fun c => 48 ≤ c.toNat && c.toNat ≤ 57) = true ∧
        digitsValue body < 2 ^ 64 ∧ un = digitsValue body) := by
  unfold ParseUint digitsValue
  by_cases hb : body = []
  · simp [hb]
  · simp only [hb, if_false, ne_eq, not_false_eq_true, true_and]
    exact parseUintLoop_ok_iff body 0 un (by norm_num)

theorem wrapInt64_of_range (z : Int) (h1 : -(2 : Int) ^ 63 ≤ z) (h2 : z < (2 : Int) ^ 63) :
    wrapInt64 z = z := by
  unfold wrapInt64
  norm_num at h1 h2 ⊢
  omega

theorem wrapInt64_min : wrapInt64 ((2 : Int) ^ 63) = -(2 : Int) ^ 63 := by
  unfold wrapInt64
  norm_num

theorem ParseInt_cons (c : Char) (cs : List Char) (n : Int) :
    ParseInt ⟨c :: cs⟩ = .ok n ↔
      ∃ un, ParseUint (if c = '+' ∨ c = '-' then cs else c :: cs) = .ok un ∧
        ((c ≠ '-' ∧ un < 2 ^ 63 ∧ n = (un : Int)) ∨ (c = '-' ∧ un ≤ 2 ^ 63 ∧ n = -(un : Int))) := by
  unfold ParseInt
  simp only []
  cases hP : ParseUint (if c = '+' ∨ c = '-' then cs else c :: cs) with
  | error e =>
    cases e with
    | ErrSyntax => simp
    | ErrRange =>
      by_cases hc : c = '-' <;> simp [hc]
  | ok un =>
    by_cases hc : c = '-'
    · by_cases hr : un > 2 ^ 63
      · norm_num at hr
        have hr2 : ¬ un ≤ 9223372036854775808 := by omega
        simp [hc, hr, hr2]
      · simp only [hc, decide_True, Bool.true_eq_false, false_and, if_false, true_and, hr,
          Except.ok.injEq, if_true, exists_eq_left', ne_eq, not_true_eq_false, false_or]
        have hle : un ≤ 2 ^ 63 := by omega
        simp only [hle, true_and]
        rcases Nat.lt_or_eq_of_le hle with hlt | heq
        · have h1 : wrapInt64 (un : Int) = un := by
            apply wrapInt64_of_range
            · have : (0 : Int) ≤ un := Int.ofNat_nonneg un
              norm_num; omega
            · exact_mod_cast hlt
          have h2 : wrapInt64 (-(un : Int)) = -(un : Int) := by
            apply wrapInt64_of_range
            · have : (un : Int) < 2 ^ 63 := by exact_mod_cast hlt
              omega
            · have : (0 : Int) ≤ un := Int.ofNat_nonneg un
              norm_num; omega
          rw [h1, h2]
          exact eq_comm
        · subst heq
          have h1 : wrapInt64 (((2 ^ 63 : Nat)) : Int) = -(2 : Int) ^ 63 := by
            unfold wrapInt64; norm_num
          have h2 : wrapInt64 (-(-(2 : Int) ^ 63)) = -(2 : Int) ^ 63 := by
            unfold wrapInt64; norm_num
          rw [h1, h2]
          norm_num
          exact eq_comm
    · by_cases hr : un ≥ 2 ^ 63
      · norm_num at hr
        have hr2 : ¬ un < 9223372036854775808 := by omega
        simp [hc, hr, hr2]
      · have hlt : un < 2 ^ 63 := by omega
        have h1 : wrapInt64 (un : Int) = un := by
          apply wrapInt64_of_range
          · have : (0 : Int) ≤ un := Int.ofNat_nonneg un
            norm_num; omega
          · exact_mod_cast hlt
        norm_num at hr hlt
        have hr2 : ¬ 9223372036854775808 ≤ un := by omega
        simp [hc, hr2, h1, hlt]
        exact eq_comm

theorem ParseInt_ok_iff (s : String) (n : Int) :
    ParseInt s = .ok n ↔ IsInt64Decimal s n := by
  obtain ⟨l⟩ := s
  cases l with
  | nil => simp [ParseInt, IsInt64Decimal, decimalInt]
  | cons c cs =>
    rw [ParseInt_cons]
    simp only [IsInt64Decimal, decimalInt, List.head?_cons, Option.some.injEq, List.tail_cons]
    generalize (if c = '+' ∨ c = '-' then cs else c :: cs) = body
    have h0 : (0 : Int) ≤ digitsValue body := Int.ofNat_nonneg _
    constructor
    · rintro ⟨un, hP, hcase⟩
      obtain ⟨hb, hall, hlt, hun⟩ := (ParseUint_ok_iff _ _).1 hP
      rw [if_pos ⟨hb, hall⟩]
      subst hun
      rcases hcase with ⟨hc, hr, hn⟩ | ⟨hc, hr, hn⟩
      · have hr2 : (digitsValue body : Int) < 2 ^ 63 := by exact_mod_cast hr
        refine ⟨by simp [hc, hn], ?_, ?_⟩ <;> rw [hn] <;> norm_num at hr2 ⊢ <;> omega
      · have hr2 : (digitsValue body : Int) ≤ 2 ^ 63 := by exact_mod_cast hr
        refine ⟨by simp [hc, hn], ?_, ?_⟩ <;> rw [hn] <;> norm_num at hr2 ⊢ <;> omega
    · rintro ⟨hdec, hlo, hhi⟩
      by_cases hcond : body ≠ [] ∧ body.all (fun c => 48 ≤ c.toNat && c.toNat ≤ 57) = true
      · rw [if_pos hcond] at hdec
        simp only [Option.some.injEq] at hdec
        by_cases hc : c = '-'
        · simp only [hc, decide_True, if_true] at hdec
          have hle : digitsValue body ≤ 2 ^ 63 := by
            have : ((digitsValue body : Nat) : Int) ≤ 2 ^ 63 := by
              rw [← hdec] at hlo
              norm_num at hlo ⊢
              omega
            exact_mod_cast this
          refine ⟨_, (ParseUint_ok_iff _ _).2 ⟨hcond.1, hcond.2, ?_, rfl⟩,
            Or.inr ⟨hc, hle, hdec.symm⟩⟩
          norm_num at hle ⊢; omega
        · simp only [hc, decide_False, Bool.false_eq_true, if_false] at hdec
          have hle : digitsValue body < 2 ^ 63 := by
            have : ((digitsValue body : Nat) : Int) < 2 ^ 63 := by
              rw [← hdec] at hhi; exact hhi
            exact_mod_cast this
          refine ⟨_, (ParseUint_ok_iff _ _).2 ⟨hcond.1, hcond.2, ?_, rfl⟩,
            Or.inl ⟨hc, hle, hdec.symm⟩⟩
          norm_num at hle ⊢; omega
      · rw [if_neg hcond] at hdec
        cases hdec

theorem not_IsInt64Decimal_empty (n : Int) : ¬ IsInt64Decimal "" n := by
  intro h
  have h1 := h.1
  simp [decimalInt] at h1

/-! ## C4 -/

/-- C4: in the tally phase (phase 1), when the tally buffer is, after trimming,
empty or not a base-10 numeral of a signed 64-bit integer, `Update` on the
enter key returns the session unchanged: `submitted`, `phase`, the stored
tally, the restaurant and both buffers are what they were. -/
theorem tally_enter_invalid_unchanged (ed : Editor) (m : OfficeTallyModel)
    (hp : m.phase = 1)
    (hbad : TrimSpace m.tallyInput.Value = "" ∨
      ∀ n, ¬ IsInt64Decimal (TrimSpace m.tallyInput.Value) n) :
    m.Update ed (.key "enter") = m := by
  have hp0 : ¬ m.phase = 0 := by rw [hp]; decide
  by_cases he : TrimSpace m.tallyInput.Value = ""
  · simp [OfficeTallyModel.Update, hp0, he]
  · have hno : ∀ n, ¬ IsInt64Decimal (TrimSpace m.tallyInput.Value) n := by
      rcases hbad with h | h
      · exact absurd h he
      · exact h
    simp only [OfficeTallyModel.Update, if_true, hp0, if_false, he]
    cases hP : ParseInt (TrimSpace m.tallyInput.Value) with
    | error e => rfl
    | ok n => exact absurd ((ParseInt_ok_iff _ _).1 hP) (hno n)

/-- C4, witness: the session with restaurant "Deli" in the tally phase whose
tally buffer holds "abc". -/
theorem tally_enter_invalid_unchanged_witness :
    OfficeTallyModel.Update lineEdit
      { phase := 1
        restaurantInput := { value := "Deli", pos := 4, focus := false, CharLimit := 256 }
        restaurant := "Deli"
        tallyInput := { value := "abc", pos := 3, focus := true, CharLimit := 10 }
        tally := 0
        submitted := false } (.key "enter")
      = { phase := 1
          restaurantInput := { value := "Deli", pos := 4, focus := false, CharLimit := 256 }
          restaurant := "Deli"
          tallyInput := { value := "abc", pos := 3, focus := true, CharLimit := 10 }
          tally := 0
          submitted := false } :=
  tally_enter_invalid_unchanged lineEdit _ rfl
    (Or.inr fun n h => by
      have h1 := h.1
      have h2 : decimalInt (TrimSpace "abc").data = none := by decide
      exact absurd (h2 ▸ h1 : (none : Option Int) = some n) (by simp))

/-! ## C5 -/

/-- C5: in the tally phase (phase 1), when the trimmed tally buffer is a
base-10 numeral of the signed 64-bit integer `n`, `Update` on the enter key
yields a session that is submitted, whose `SubmittedTally` is `n` and whose
`SubmittedRestaurant` is the restaurant captured before; nothing else changes. -/
theorem tally_enter_valid_submits (ed : Editor) (m : OfficeTallyModel) (n : Int)
    (hp : m.phase = 1) (hn : IsInt64Decimal (TrimSpace m.tallyInput.Value) n) :
    (m.Update ed (.key "enter")).IsSubmitted = true ∧
    (m.Update ed (.key "enter")).SubmittedTally = n ∧
    (m.Update ed (.key "enter")).SubmittedRestaurant = m.restaurant ∧
    m.Update ed (.key "enter") = { m with tally := n, submitted := true } := by
  have hp0 : ¬ m.phase = 0 := by rw [hp]; decide
  have he : ¬ TrimSpace m.tallyInput.Value = "" := by
    intro h0
    rw [h0] at hn
    exact not_IsInt64Decimal_empty n hn
  have hP := (ParseInt_ok_iff _ _).2 hn
  simp [OfficeTallyModel.Update, hp0, he, hP, OfficeTallyModel.IsSubmitted,
    OfficeTallyModel.SubmittedTally, OfficeTallyModel.SubmittedRestaurant]

/-- C5, witness: typing "Deli", enter, "12" into a fresh focused session gives
the tally phase with restaurant "Deli"; enter then submits restaurant "Deli"
with tally 12. -/
theorem tally_enter_valid_submits_witness :
    (OfficeTallyModel.calls lineEdit NewOfficeTallyModel
        [.focus, .update (.key "D"), .update (.key "e"), .update (.key "l"),
          .update (.key "i"), .update (.key "enter"), .update (.key "1"),
          .update (.key "2"), .update (.key "enter")]).IsSubmitted = true ∧
    (OfficeTallyModel.calls lineEdit NewOfficeTallyModel
        [.focus, .update (.key "D"), .update (.key "e"), .update (.key "l"),
          .update (.key "i"), .update (.key "enter"), .update (.key "1"),
          .update (.key "2"), .update (.key "enter")]).SubmittedTally = 12 ∧
    (OfficeTallyModel.calls lineEdit NewOfficeTallyModel
        [.focus, .update (.key "D"), .update (.key "e"), .update (.key "l"),
          .update (.key "i"), .update (.key "enter"), .update (.key "1"),
          .update (.key "2"), .update (.key "enter")]).SubmittedRestaurant = "Deli" :=
  have h := tally_enter_valid_submits lineEdit
    (OfficeTallyModel.calls lineEdit NewOfficeTallyModel
      [.focus, .update (.key "D"), .update (.key "e"), .update (.key "l"),
        .update (.key "i"), .update (.key "enter"), .update (.key "1"),
        .update (.key "2")]) 12 (by decide) (by decide)
  ⟨h.1, h.2.1, h.2.2.1⟩

/-! ## Invariants of the two forms -/

theorem sliceApply_some {α : Type} (xs : List α) (i : Int) (f : α → α)
    (h0 : 0 ≤ i) (h1 : i < xs.length) :
    ∃ ys, sliceApply xs i f = some ys ∧ ys.length = xs.length := by
  have hlt : i.toNat < xs.length := by omega
  have hn : ¬ i < 0 := by omega
  refine ⟨xs.set i.toNat (f xs[i.toNat]), ?_, by simp⟩
  simp [sliceApply, sliceGet, hn, List.getElem?_eq_getElem hlt]

theorem lunch_moveFocus_some (m : LunchOrderModel) (delta : Int)
    (h0 : 0 ≤ m.focusIndex) (h1 : m.focusIndex < m.metadataInputs.length)
    (h2 : 0 ≤ m.focusIndex + delta) (h3 : m.focusIndex + delta < m.metadataInputs.length) :
    ∃ m1, m.moveFocus delta = some m1 ∧
      m1.metadataInputs.length = m.metadataInputs.length ∧
      m1.focusIndex = m.focusIndex + delta ∧ m1.phase = m.phase ∧
      m1.restaurant = m.restaurant ∧ m1.submitted = m.submitted ∧
      m1.restaurantInput = m.restaurantInput := by
  obtain ⟨ys, hy, hyl⟩ := sliceApply_some m.metadataInputs m.focusIndex TextInput.Blur h0 h1
  obtain ⟨zs, hz, hzl⟩ := sliceApply_some ys (m.focusIndex + delta) TextInput.Focus h2
    (by rw [hyl]; exact h3)
  refine ⟨{ m with metadataInputs := zs, focusIndex := m.focusIndex + delta }, ?_, ?_, rfl, rfl,
    rfl, rfl, rfl⟩
  · simp [LunchOrderModel.moveFocus, hy, hz]
  · simp [hzl, hyl]

theorem lunch_updateActiveInput_some (ed : Editor) (m : LunchOrderModel) (msg : Msg)
    (h0 : 0 ≤ m.focusIndex) (h1 : m.focusIndex < m.metadataInputs.length) :
    ∃ m1, m.updateActiveInput ed msg = some m1 ∧
      m1.metadataInputs.length = m.metadataInputs.length ∧
      m1.focusIndex = m.focusIndex ∧ m1.phase = m.phase ∧
      m1.restaurant = m.restaurant ∧ m1.submitted = m.submitted := by
  by_cases hp : m.phase = 0
  · exact ⟨{ m with restaurantInput := m.restaurantInput.Update ed msg },
      by simp [LunchOrderModel.updateActiveInput, hp], rfl, rfl, rfl, rfl, rfl⟩
  · obtain ⟨ys, hy, hyl⟩ :=
      sliceApply_some m.metadataInputs m.focusIndex (fun t => t.Update ed msg) h0 h1
    exact ⟨{ m with metadataInputs := ys }, by simp [LunchOrderModel.updateActiveInput, hp, hy],
      hyl, rfl, rfl, rfl, rfl⟩

theorem lunch_Inv_of_frame {m m1 : LunchOrderModel} (hi : m.Inv)
    (hl : m1.metadataInputs.length = m.metadataInputs.length)
    (hf0 : 0 ≤ m1.focusIndex) (hf1 : m1.focusIndex < 5) (hp : m1.phase = m.phase)
    (hr : m1.restaurant = m.restaurant) (hs : m1.submitted = m.submitted) : m1.Inv := by
  obtain ⟨a, _, _, d, e⟩ := hi
  refine ⟨by rw [hl, a], hf0, hf1, ?_, ?_⟩
  · rw [hs, hp]; exact d
  · rw [hp, hr]; exact e

theorem lunch_Update_inv (ed : Editor) (m : LunchOrderModel) (msg : Msg)
    (hi : m.Inv) : ∃ m1, m.Update ed msg = some m1 ∧ m1.Inv := by
  have hi0 := hi
  obtain ⟨hl, hf0, hf1, hs, hr⟩ := hi
  have hlen : m.focusIndex < (m.metadataInputs.length : Int) := by rw [hl]; exact hf1
  -- the two ways out of the navigation cases
  have fwd : ∃ m1, m.updateActiveInput ed msg = some m1 ∧ m1.Inv := by
    obtain ⟨m1, h1, a, b, c, d, e⟩ := lunch_updateActiveInput_some ed m msg hf0 hlen
    exact ⟨m1, h1, lunch_Inv_of_frame hi0 a (by omega) (by omega) c d e⟩
  have mv : ∀ delta : Int, 0 ≤ m.focusIndex + delta → m.focusIndex + delta < 5 →
      ∃ m1, m.moveFocus delta = some m1 ∧ m1.Inv := by
    intro delta h2 h3
    obtain ⟨m1, h1, a, b, c, d, e, _⟩ :=
      lunch_moveFocus_some m delta hf0 hlen h2 (by rw [hl]; exact h3)
    exact ⟨m1, h1, lunch_Inv_of_frame hi0 a (by omega) (by omega) c d e⟩
  cases msg with
  | other tag => simpa [LunchOrderModel.Update] using fwd
  | key k =>
    unfold LunchOrderModel.Update
    simp only [hl]
    by_cases hk1 : k = "enter"
    · simp only [hk1, if_true]
      by_cases hp : m.phase = 0
      · simp only [hp, if_true]
        by_cases hv : m.restaurantInput.Value = ""
        · refine ⟨{ m with restaurant := m.restaurantInput.Value }, by simp [hv, hp],
            hl, hf0, hf1, ?_, ?_⟩
          · intro h; exact absurd hp (hs h)
          · intro h; exact absurd hp h
        · simp only [hv, if_false]
          obtain ⟨ys, hy, hyl⟩ := sliceApply_some m.metadataInputs 0 TextInput.Focus
            (le_refl 0) (by rw [hl]; norm_num)
          refine ⟨{ m with
              restaurant := m.restaurantInput.Value
              phase := 1
              restaurantInput := m.restaurantInput.Blur
              metadataInputs := ys }, by simp only [hy, Option.some_bind], ?_, hf0, hf1, ?_, ?_⟩
          · simp [hyl, hl]
          · intro _; simp
          · intro _; exact hv
      · simp only [hp, if_false]
        by_cases hlast : m.focusIndex < ((5 : Nat) : Int) - 1
        · simp only [hlast, if_true]
          exact mv 1 (by omega) (by omega)
        · simp only [hlast, if_false]
          exact ⟨{ m with submitted := true }, rfl, hl, hf0, hf1, fun _ => hp, hr⟩
    · simp only [hk1, if_false]
      by_cases hk2 : k = "up"
      · simp only [hk2, if_true]
        by_cases hc : m.phase = 1 ∧ m.focusIndex > 0
        · simp only [hc, and_self, if_true]
          exact mv (-1) (by omega) (by omega)
        · simpa only [hc, if_false, hk2] using fwd
      · simp only [hk2, if_false]
        by_cases hk3 : k = "down"
        · simp only [hk3, if_true]
          by_cases hc : m.phase = 1 ∧ m.focusIndex < ((5 : Nat) : Int) - 1
          · simp only [hc, and_self, if_true]
            exact mv 1 (by omega) (by omega)
          · simpa only [hc, if_false, hk3] using fwd
        · simp only [hk3, if_false]
          by_cases hk4 : k = "tab"
          · simp only [hk4, if_true]
            by_cases hc : m.phase = 1 ∧ m.focusIndex < ((5 : Nat) : Int) - 1
            · simp only [hc, and_self, if_true]
              exact mv 1 (by omega) (by omega)
            · simpa only [hc, if_false, hk4] using fwd
          · simp only [hk4, if_false]
            by_cases hk5 : k = "shift+tab"
            · simp only [hk5, if_true]
              by_cases hc : m.phase = 1 ∧ m.focusIndex > 0
              · simp only [hc, and_self, if_true]
                exact mv (-1) (by omega) (by omega)
              · simpa only [hc, if_false, hk5] using fwd
            · simpa only [hk5, if_false] using fwd

theorem lunch_New_inv : NewLunchOrderModel.Inv := by
  refine ⟨by decide, by decide, by decide, ?_, ?_⟩
  · intro h; exact absurd h (by decide)
  · intro h; exact absurd rfl h

theorem lunch_Focus_inv (m : LunchOrderModel) (hi : m.Inv) :
    ∃ m1, m.Focus = some m1 ∧ m1.Inv := by
  obtain ⟨hl, hf0, hf1, hs, hr⟩ := hi
  by_cases hp : m.phase = 0
  · exact ⟨{ m with restaurantInput := m.restaurantInput.Focus },
      by simp [LunchOrderModel.Focus, hp], hl, hf0, hf1, hs, hr⟩
  · obtain ⟨ys, hy, hyl⟩ := sliceApply_some m.metadataInputs m.focusIndex TextInput.Focus hf0
      (by rw [hl]; exact hf1)
    exact ⟨{ m with metadataInputs := ys }, by simp [LunchOrderModel.Focus, hp, hy],
      by simp [hyl, hl], hf0, hf1, hs, hr⟩

theorem lunch_Blur_inv (m : LunchOrderModel) (hi : m.Inv) :
    ∃ m1, m.Blur = some m1 ∧ m1.Inv := by
  obtain ⟨hl, hf0, hf1, hs, hr⟩ := hi
  by_cases hp : m.phase = 0
  · exact ⟨{ m with restaurantInput := m.restaurantInput.Blur },
      by simp [LunchOrderModel.Blur, hp], hl, hf0, hf1, hs, hr⟩
  · obtain ⟨ys, hy, hyl⟩ := sliceApply_some m.metadataInputs m.focusIndex TextInput.Blur hf0
      (by rw [hl]; exact hf1)
    exact ⟨{ m with metadataInputs := ys }, by simp [LunchOrderModel.Blur, hp, hy],
      by simp [hyl, hl], hf0, hf1, hs, hr⟩

theorem lunch_Clear_inv (m : LunchOrderModel) (hl : m.metadataInputs.length = 5) :
    m.Clear.Inv := by
  refine ⟨by simp [LunchOrderModel.Clear, hl], le_refl 0, by simp [LunchOrderModel.Clear], ?_, ?_⟩
  · intro h; simp [LunchOrderModel.Clear] at h
  · intro h; simp [LunchOrderModel.Clear] at h

theorem lunch_call_inv (ed : Editor) (m : LunchOrderModel) (c : FormCall)
    (hi : m.Inv) : ∃ m1, m.call ed c = some m1 ∧ m1.Inv := by
  cases c with
  | update msg => exact lunch_Update_inv ed m msg hi
  | focus => exact lunch_Focus_inv m hi
  | blur => exact lunch_Blur_inv m hi
  | clear => exact ⟨m.Clear, rfl, lunch_Clear_inv m hi.1⟩

theorem lunch_calls_inv (ed : Editor) (cs : List FormCall) (m : LunchOrderModel)
    (hi : m.Inv) : ∃ m1, LunchOrderModel.calls ed m cs = some m1 ∧ m1.Inv := by
  induction cs generalizing m with
  | nil => exact ⟨m, rfl, hi⟩
  | cons c rest ih =>
    obtain ⟨m1, h1, hi1⟩ := lunch_call_inv ed m c hi
    obtain ⟨m2, h2, hi2⟩ := ih m1 hi1
    exact ⟨m2, by simp [LunchOrderModel.calls, h1, h2], hi2⟩

theorem tally_Update_inv (ed : Editor) (m : OfficeTallyModel) (msg : Msg)
    (hi : m.Inv) : (m.Update ed msg).Inv := by
  obtain ⟨hs, hr⟩ := hi
  have fwd : (m.updateActiveInput ed msg).Inv := by
    unfold OfficeTallyModel.updateActiveInput
    by_cases hp : m.phase = 0
    · rw [if_pos hp]; exact ⟨hs, hr⟩
    · rw [if_neg hp]; exact ⟨hs, hr⟩
  cases msg with
  | other tag => exact fwd
  | key k =>
    unfold OfficeTallyModel.Update
    by_cases hk : k = "enter"
    · simp only [hk, if_true]
      by_cases hp : m.phase = 0
      · simp only [hp, if_true]
        by_cases hv : m.restaurantInput.Value = ""
        · simp only [hv, if_true]
          exact ⟨fun h => absurd hp (hs h), fun h => absurd rfl h⟩
        · simp only [hv, if_false]
          exact ⟨fun _ => by simp, fun _ => hv⟩
      · simp only [hp, if_false]
        by_cases he : TrimSpace m.tallyInput.Value = ""
        · simp only [he, if_true]; exact ⟨hs, hr⟩
        · simp only [he, if_false]
          cases ParseInt (TrimSpace m.tallyInput.Value) with
          | error e => exact ⟨hs, hr⟩
          | ok n => exact ⟨fun _ => hp, hr⟩
    · simp only [hk, if_false]; exact fwd

theorem tally_call_inv (ed : Editor) (m : OfficeTallyModel) (c : FormCall)
    (hi : m.Inv) : (m.call ed c).Inv := by
  obtain ⟨hs, hr⟩ := hi
  cases c with
  | update msg => exact tally_Update_inv ed m msg ⟨hs, hr⟩
  | focus =>
    simp only [OfficeTallyModel.call, OfficeTallyModel.Focus]
    by_cases hp : m.phase = 0
    · rw [if_pos hp]; exact ⟨hs, hr⟩
    · rw [if_neg hp]; exact ⟨hs, hr⟩
  | blur =>
    simp only [OfficeTallyModel.call, OfficeTallyModel.Blur]
    by_cases hp : m.phase = 0
    · rw [if_pos hp]; exact ⟨hs, hr⟩
    · rw [if_neg hp]; exact ⟨hs, hr⟩
  | clear =>
    exact ⟨fun h => by simp [OfficeTallyModel.call, OfficeTallyModel.Clear] at h,
      fun h => by simp [OfficeTallyModel.call, OfficeTallyModel.Clear] at h⟩

theorem tally_calls_inv (ed : Editor) (cs : List FormCall) (m : OfficeTallyModel)
    (hi : m.Inv) : (OfficeTallyModel.calls ed m cs).Inv := by
  induction cs generalizing m with
  | nil => exact hi
  | cons c rest ih => exact ih _ (tally_call_inv ed m c hi)

theorem tally_New_inv : NewOfficeTallyModel.Inv :=
  ⟨fun h => absurd h (by decide), fun h => absurd rfl h⟩

/-! ## C6 -/

/-- C6: every finite sequence of `Update` (with any message), `Focus`, `Blur`
and `Clear` calls on a fresh lunch-order session runs without an
index-out-of-range panic and ends in a session with its five metadata inputs
whose `focusIndex` lies within 0 and 4, so that `metadataInputs[focusIndex]`
exists. -/
theorem focusIndex_in_bounds (ed : Editor) (cs : List FormCall) :
    ∃ m, LunchOrderModel.calls ed NewLunchOrderModel cs = some m ∧
      m.metadataInputs.length = 5 ∧ 0 ≤ m.focusIndex ∧
      m.focusIndex ≤ (m.metadataInputs.length : Int) - 1 ∧
      (sliceGet m.metadataInputs m.focusIndex).isSome = true := by
  obtain ⟨m, hm, hl, hf0, hf1, _, _⟩ :=
    lunch_calls_inv ed cs NewLunchOrderModel lunch_New_inv
  refine ⟨m, hm, hl, hf0, by rw [hl]; norm_num; omega, ?_⟩
  have hlt : m.focusIndex.toNat < m.metadataInputs.length := by omega
  have hn : ¬ m.focusIndex < 0 := by omega
  simp [sliceGet, hn, List.getElem?_eq_getElem hlt]

/-! ## C7 -/

/-- C7: for both forms, in the session reached from the constructor by any
finite sequence of `Update`, `Focus`, `Blur` and `Clear` calls (the sequence
always runs to its end), `submitted = true` implies that the captured
restaurant is not the empty string. -/
theorem submitted_has_restaurant (ed : Editor) (cs : List FormCall) :
    (∃ m, LunchOrderModel.calls ed NewLunchOrderModel cs = some m ∧
      (m.submitted = true → m.restaurant ≠ "")) ∧
    ((OfficeTallyModel.calls ed NewOfficeTallyModel cs).submitted = true →
      (OfficeTallyModel.calls ed NewOfficeTallyModel cs).restaurant ≠ "") := by
  constructor
  · obtain ⟨m, hm, _, _, _, hs, hr⟩ :=
      lunch_calls_inv ed cs NewLunchOrderModel lunch_New_inv
    exact ⟨m, hm, fun h => hr (hs h)⟩
  · have h := tally_calls_inv ed cs NewOfficeTallyModel
      tally_New_inv
    exact fun hsub => h.2 (h.1 hsub)

/-- C7, witness: typing "D", enter, "1", enter submits both forms (the
lunch-order form after four more enter keys), and the restaurant is then not
empty. -/
theorem submitted_has_restaurant_witness :
    (∃ m, LunchOrderModel.calls lineEdit NewLunchOrderModel
        [.focus, .update (.key "D"), .update (.key "enter"), .update (.key "1"),
          .update (.key "enter"), .update (.key "enter"), .update (.key "enter"),
          .update (.key "enter"), .update (.key "enter")] = some m ∧
      m.submitted = true ∧ m.restaurant ≠ "") ∧
    ((OfficeTallyModel.calls lineEdit NewOfficeTallyModel
        [.focus, .update (.key "D"), .update (.key "enter"), .update (.key "1"),
          .update (.key "enter")]).submitted = true ∧
      (OfficeTallyModel.calls lineEdit NewOfficeTallyModel
        [.focus, .update (.key "D"), .update (.key "enter"), .update (.key "1"),
          .update (.key "enter")]).restaurant ≠ "") := by
  constructor
  · obtain ⟨m, hm, himp⟩ := (submitted_has_restaurant lineEdit
      [.focus, .update (.key "D"), .update (.key "enter"), .update (.key "1"),
        .update (.key "enter"), .update (.key "enter"), .update (.key "enter"),
        .update (.key "enter"), .update (.key "enter")]).1
    have hsub : (LunchOrderModel.calls lineEdit NewLunchOrderModel
        [.focus, .update (.key "D"), .update (.key "enter"), .update (.key "1"),
          .update (.key "enter"), .update (.key "enter"), .update (.key "enter"),
          .update (.key "enter"), .update (.key "enter")]).map (fun m => m.submitted)
        = some true := by decide
    rw [hm] at hsub
    have hs : m.submitted = true := by simpa using hsub
    exact ⟨m, hm, hs, himp hs⟩
  · have hs : (OfficeTallyModel.calls lineEdit NewOfficeTallyModel
        [.focus, .update (.key "D"), .update (.key "enter"), .update (.key "1"),
          .update (.key "enter")]).submitted = true := by decide
    exact ⟨hs, (submitted_has_restaurant lineEdit _).2 hs⟩

/-! ## C8 -/

/-- C8, failing input: from `initialModel`, choosing "Post the office tally",
typing "D", enter, "1", enter submits a tally; the controller stays on the
tally form in phase 0 with the restaurant input focused, and the tally input
is focused too. The same holds after leaving the tally phase with esc and
entering the form again. -/
theorem tally_form_two_inputs_focused :
    (model.run demoEnv (initialModel demoEnv [])
        [.key "down", .key "enter", .key "D", .key "enter", .key "1", .key "enter"]).map
      (fun m => (m.currentView, m.officeTally.phase, m.officeTally.restaurantInput.focus,
        m.officeTally.tallyInput.focus))
      = some (.viewOfficeTally, 0, true, true) ∧
    (model.run demoEnv (initialModel demoEnv [])
        [.key "down", .key "enter", .key "D", .key "enter", .key "esc", .key "enter"]).map
      (fun m => (m.currentView, m.officeTally.phase, m.officeTally.restaurantInput.focus,
        m.officeTally.tallyInput.focus))
      = some (.viewOfficeTally, 0, true, true) := by
  decide

/-! ## C9 -/

theorem SetValue_empty (t : TextInput) :
    (t.SetValue "").value = "" ∧ (t.SetValue "").focus = t.focus := by
  have h : ("" : String).data = [] := rfl
  constructor
  · simp only [TextInput.SetValue, h, List.length_nil, List.take_nil, ite_self]
  · rfl

theorem lunch_Clear_spec (lo : LunchOrderModel) :
    lo.Clear.restaurantInput.Value = "" ∧
      lo.Clear.metadataInputs.length = lo.metadataInputs.length ∧
      (∀ t ∈ lo.Clear.metadataInputs, t.Value = "" ∧ t.focus = false) ∧
      lo.Clear.restaurant = "" ∧ lo.Clear.phase = 0 ∧ lo.Clear.focusIndex = 0 ∧
      lo.Clear.submitted = false ∧
      lo.Clear.restaurantInput.focus = lo.restaurantInput.focus := by
  refine ⟨(SetValue_empty _).1, by simp [LunchOrderModel.Clear], ?_, rfl, rfl, rfl, rfl,
    (SetValue_empty _).2⟩
  intro t ht
  simp only [LunchOrderModel.Clear, List.mem_map] at ht
  obtain ⟨u, _, rfl⟩ := ht
  exact ⟨(SetValue_empty u).1, rfl⟩

theorem tally_Clear_spec (ot : OfficeTallyModel) :
    ot.Clear.restaurantInput.Value = "" ∧ ot.Clear.tallyInput.Value = "" ∧
      ot.Clear.restaurant = "" ∧ ot.Clear.phase = 0 ∧ ot.Clear.tally = 0 ∧
      ot.Clear.submitted = false ∧
      ot.Clear.restaurantInput.focus = ot.restaurantInput.focus :=
  ⟨(SetValue_empty _).1, (SetValue_empty _).1, rfl, rfl, rfl, rfl, (SetValue_empty _).2⟩

/-- C9, counterexample: `Clear` on a session whose restaurant input is focused
(a fresh session after `Focus`) leaves that input focused, in both forms. -/
theorem clear_keeps_restaurant_focus :
    (LunchOrderModel.calls lineEdit NewLunchOrderModel [.focus, .clear]).map
      (fun m => m.restaurantInput.focus) = some true ∧
    (OfficeTallyModel.calls lineEdit NewOfficeTallyModel [.focus, .clear]).restaurantInput.focus
      = true := by
  decide

/-- C9, amended: for both forms and every session state, `Clear` yields a
session in which the restaurant buffer and every detail buffer are empty, the
captured restaurant is empty, the phase is 0, the focus index is 0
(lunch-order), the stored tally is 0 (office-tally) and `submitted` is false;
in the lunch-order form every metadata input is blurred; the restaurant input
is not blurred, its focus flag is what it was. -/
theorem clear_resets (lo : LunchOrderModel) (ot : OfficeTallyModel) :
    (lo.Clear.restaurantInput.Value = "" ∧
      lo.Clear.metadataInputs.length = lo.metadataInputs.length ∧
      (∀ t ∈ lo.Clear.metadataInputs, t.Value = "" ∧ t.focus = false) ∧
      lo.Clear.restaurant = "" ∧ lo.Clear.phase = 0 ∧ lo.Clear.focusIndex = 0 ∧
      lo.Clear.submitted = false ∧
      lo.Clear.restaurantInput.focus = lo.restaurantInput.focus) ∧
    (ot.Clear.restaurantInput.Value = "" ∧ ot.Clear.tallyInput.Value = "" ∧
      ot.Clear.restaurant = "" ∧ ot.Clear.phase = 0 ∧ ot.Clear.tally = 0 ∧
      ot.Clear.submitted = false ∧
      ot.Clear.restaurantInput.focus = ot.restaurantInput.focus) := by
  exact ⟨lunch_Clear_spec lo, tally_Clear_spec ot⟩

/-! ## C10 -/

/-- C10: let a message reach the active form (it is not one of the global keys
ctrl+c and esc, which the controller keeps for itself) and let the form report
`submitted = true` after it. On the lunch-order form (with its five metadata
inputs) `model.Update` returns a state whose view is Home and whose
lunch-order session is the reset one. On the office-tally form it returns a
state whose view is still the office-tally form, whose tally session is reset
to phase 0 with empty buffers and `submitted = false`, and whose restaurant
input is focused. -/
theorem submitted_form_is_reset (E : Env) (m : model E) (msg : Msg)
    (hq : msg ≠ .key "ctrl+c") (he : msg ≠ .key "esc") :
    (m.currentView = .viewLunchOrder →
      ∀ lo, m.lunchOrder.Update E.edit msg = some lo → lo.IsSubmitted = true →
        lo.metadataInputs.length = 5 →
        ∃ m1, m.Update E msg = some m1 ∧ m1.currentView = .viewHome ∧
          m1.lunchOrder = lo.Clear ∧ m1.lunchOrder.phase = 0 ∧
          m1.lunchOrder.restaurant = "" ∧ m1.lunchOrder.restaurantInput.Value = "" ∧
          (∀ t ∈ m1.lunchOrder.metadataInputs, t.Value = "") ∧
          m1.lunchOrder.focusIndex = 0 ∧ m1.lunchOrder.submitted = false) ∧
    (m.currentView = .viewOfficeTally →
      (m.officeTally.Update E.edit msg).IsSubmitted = true →
        ∃ m1, m.Update E msg = some m1 ∧ m1.currentView = .viewOfficeTally ∧
          m1.officeTally = (m.officeTally.Update E.edit msg).Clear.Focus ∧
          m1.officeTally.phase = 0 ∧ m1.officeTally.restaurant = "" ∧
          m1.officeTally.restaurantInput.Value = "" ∧
          m1.officeTally.tallyInput.Value = "" ∧ m1.officeTally.tally = 0 ∧
          m1.officeTally.submitted = false ∧
          m1.officeTally.restaurantInput.focus = true) := by
  have hup : m.Update E msg = model.dispatch E m msg := by
    cases msg with
    | other tag => rfl
    | key k =>
      have h1 : k ≠ "ctrl+c" := fun h => hq (by rw [h])
      have h2 : k ≠ "esc" := fun h => he (by rw [h])
      simp [model.Update, h1, h2]
  constructor
  · intro hv lo hlo hsub hlen
    obtain ⟨s, hs⟩ := SubmittedMetadata_some lo hlen
    have hc := lunch_Clear_spec lo
    have hprops : lo.Clear.phase = 0 ∧ lo.Clear.restaurant = "" ∧
        lo.Clear.restaurantInput.Value = "" ∧ (∀ t ∈ lo.Clear.metadataInputs, t.Value = "") ∧
        lo.Clear.focusIndex = 0 ∧ lo.Clear.submitted = false :=
      ⟨hc.2.2.2.2.1, hc.2.2.2.1, hc.1, fun t ht => (hc.2.2.1 t ht).1, hc.2.2.2.2.2.1,
        hc.2.2.2.2.2.2.1⟩
    rw [hup]
    simp only [model.dispatch, hv, hlo, Option.some_bind, hsub, if_true, hs]
    cases (db.InsertLunchOrder E m.database
        { IID := 0, SRestaurant := lo.SubmittedRestaurant, JMetadata := s,
          BIsDeleted := false }).2 with
    | error e => exact ⟨_, rfl, rfl, rfl, hprops⟩
    | ok n => exact ⟨_, rfl, rfl, rfl, hprops⟩
  · intro hv hsub
    have hc := tally_Clear_spec (m.officeTally.Update E.edit msg)
    have hph : (m.officeTally.Update E.edit msg).Clear.phase = 0 := rfl
    have hF : (m.officeTally.Update E.edit msg).Clear.Focus =
        { (m.officeTally.Update E.edit msg).Clear with
          restaurantInput := (m.officeTally.Update E.edit msg).Clear.restaurantInput.Focus } := by
      simp [OfficeTallyModel.Focus, hph]
    have hprops : (m.officeTally.Update E.edit msg).Clear.Focus.phase = 0 ∧
        (m.officeTally.Update E.edit msg).Clear.Focus.restaurant = "" ∧
        (m.officeTally.Update E.edit msg).Clear.Focus.restaurantInput.Value = "" ∧
        (m.officeTally.Update E.edit msg).Clear.Focus.tallyInput.Value = "" ∧
        (m.officeTally.Update E.edit msg).Clear.Focus.tally = 0 ∧
        (m.officeTally.Update E.edit msg).Clear.Focus.submitted = false ∧
        (m.officeTally.Update E.edit msg).Clear.Focus.restaurantInput.focus = true := by
      rw [hF]
      exact ⟨rfl, rfl, hc.1, hc.2.1, rfl, rfl, rfl⟩
    rw [hup]
    simp only [model.dispatch, hv, hsub, if_true]
    cases (db.InsertOfficeTally E m.database
        { IID := 0, SRestaurant := (m.officeTally.Update E.edit msg).SubmittedRestaurant,
          ITally := (m.officeTally.Update E.edit msg).SubmittedTally,
          BIsDeleted := false }).2 with
    | error e => exact ⟨_, rfl, rfl, rfl, hprops⟩
    | ok n => exact ⟨_, rfl, rfl, rfl, hprops⟩

/-- C10, witness: enter on the last metadata field of the lunch-order form
leads to Home with the session reset; enter on the tally "12" keeps the
office-tally form, reset and with the restaurant input focused. -/
theorem submitted_form_is_reset_witness :
    (∃ m1, lunchAtLastField.Update demoEnv (.key "enter") = some m1 ∧
      m1.currentView = .viewHome ∧ m1.lunchOrder.phase = 0 ∧
      m1.lunchOrder.restaurant = "" ∧ m1.lunchOrder.submitted = false) ∧
    (∃ m1, tallyReady.Update demoEnv (.key "enter") = some m1 ∧
      m1.currentView = .viewOfficeTally ∧ m1.officeTally.phase = 0 ∧
      m1.officeTally.submitted = false ∧ m1.officeTally.restaurantInput.focus = true) := by
  have hL := (submitted_form_is_reset demoEnv lunchAtLastField (.key "enter")
    (by decide) (by decide)).1 rfl
    { lunchAtLastField.lunchOrder with submitted := true } (by decide) rfl (by decide)
  have hT := (submitted_form_is_reset demoEnv tallyReady (.key "enter")
    (by decide) (by decide)).2 rfl (by decide)
  obtain ⟨m1, h1, h2, _, h4, h5, _, _, _, h9⟩ := hL
  obtain ⟨m2, g1, g2, _, g4, _, _, _, _, g9, g10⟩ := hT
  exact ⟨⟨m1, h1, h2, h4, h5, h9⟩, ⟨m2, g1, g2, g4, g9, g10⟩⟩


/-! ## Lemmas on the controller -/

theorem Update_eq_dispatch (E : Env) (m : model E) (msg : Msg)
    (hq : msg ≠ .key "ctrl+c") (he : msg ≠ .key "esc") :
    m.Update E msg = model.dispatch E m msg := by
  cases msg with
  | other tag => rfl
  | key k =>
    have h1 : k ≠ "ctrl+c" := fun h => hq (by rw [h])
    have h2 : k ≠ "esc" := fun h => he (by rw [h])
    simp [model.Update, h1, h2]

theorem dispatch_lunch_submitted (E : Env) (m : model E) (msg : Msg) (lo : LunchOrderModel)
    (s : String) (hv : m.currentView = .viewLunchOrder)
    (hlo : m.lunchOrder.Update E.edit msg = some lo) (hsub : lo.IsSubmitted = true)
    (hs : lo.SubmittedMetadata = some s) :
    model.dispatch E m msg = some
      { currentView := .viewHome
        home := E.homeClear m.home
        lunchOrder := lo.Clear
        officeTally := m.officeTally
        database := (db.InsertLunchOrder E m.database
          { IID := 0, SRestaurant := lo.SubmittedRestaurant, JMetadata := s,
            BIsDeleted := false }).1
        err := match (db.InsertLunchOrder E m.database
            { IID := 0, SRestaurant := lo.SubmittedRestaurant, JMetadata := s,
              BIsDeleted := false }).2 with
          | .error e => some e
          | .ok _ => m.err } := by
  simp only [model.dispatch, hv, hlo, Option.some_bind, hsub, if_true, hs]
  cases (db.InsertLunchOrder E m.database
      { IID := 0, SRestaurant := lo.SubmittedRestaurant, JMetadata := s,
        BIsDeleted := false }).2 with
  | error e => rfl
  | ok n => rfl

theorem dispatch_lunch_pending (E : Env) (m : model E) (msg : Msg) (lo : LunchOrderModel)
    (hv : m.currentView = .viewLunchOrder)
    (hlo : m.lunchOrder.Update E.edit msg = some lo) (hsub : lo.IsSubmitted = false) :
    model.dispatch E m msg = some { m with lunchOrder := lo } := by
  simp [model.dispatch, hv, hlo, hsub]

theorem dispatch_tally_submitted (E : Env) (m : model E) (msg : Msg)
    (hv : m.currentView = .viewOfficeTally)
    (hsub : (m.officeTally.Update E.edit msg).IsSubmitted = true) :
    model.dispatch E m msg = some
      { currentView := .viewOfficeTally
        home := m.home
        lunchOrder := m.lunchOrder
        officeTally := (m.officeTally.Update E.edit msg).Clear.Focus
        database := (db.InsertOfficeTally E m.database
          { IID := 0, SRestaurant := (m.officeTally.Update E.edit msg).SubmittedRestaurant,
            ITally := (m.officeTally.Update E.edit msg).SubmittedTally,
            BIsDeleted := false }).1
        err := match (db.InsertOfficeTally E m.database
            { IID := 0, SRestaurant := (m.officeTally.Update E.edit msg).SubmittedRestaurant,
              ITally := (m.officeTally.Update E.edit msg).SubmittedTally,
              BIsDeleted := false }).2 with
          | .error e => some e
          | .ok _ => m.err } := by
  simp only [model.dispatch, hv, hsub, if_true]
  cases (db.InsertOfficeTally E m.database
      { IID := 0, SRestaurant := (m.officeTally.Update E.edit msg).SubmittedRestaurant,
        ITally := (m.officeTally.Update E.edit msg).SubmittedTally,
        BIsDeleted := false }).2 with
  | error e => simp only [hv]
  | ok n => simp only [hv]

theorem dispatch_tally_pending (E : Env) (m : model E) (msg : Msg)
    (hv : m.currentView = .viewOfficeTally)
    (hsub : (m.officeTally.Update E.edit msg).IsSubmitted = false) :
    model.dispatch E m msg = some { m with officeTally := m.officeTally.Update E.edit msg } := by
  simp [model.dispatch, hv, hsub]

theorem dispatch_home (E : Env) (m : model E) (msg : Msg) (hv : m.currentView = .viewHome) :
    model.dispatch E m msg =
      if E.homeChoice (E.homeUpdate m.home msg) = "Post your own lunch order" then
        m.lunchOrder.Focus.bind fun lo => some
          { m with
            home := E.homeClear (E.homeUpdate m.home msg)
            currentView := .viewLunchOrder
            lunchOrder := lo }
      else if E.homeChoice (E.homeUpdate m.home msg) = "Post the office tally" then
        some
          { m with
            home := E.homeClear (E.homeUpdate m.home msg)
            currentView := .viewOfficeTally
            officeTally := m.officeTally.Focus }
      else if E.homeChoice (E.homeUpdate m.home msg) ≠ "" then
        some { m with home := E.homeClear (E.homeUpdate m.home msg) }
      else some { m with home := E.homeUpdate m.home msg } := by
  simp only [model.dispatch, hv]
  by_cases h1 : E.homeChoice (E.homeUpdate m.home msg) = "Post your own lunch order"
  · simp [h1]
  · by_cases h2 : E.homeChoice (E.homeUpdate m.home msg) = "Post the office tally"
    · simp [h2]
    · by_cases h3 : E.homeChoice (E.homeUpdate m.home msg) = ""
      · simp [h3]
      · simp [h1, h2, h3]

theorem lunch_Clear_fresh (lo : LunchOrderModel) : lo.Clear.Fresh := by
  obtain ⟨a, _, c, d, e, f, g, _⟩ := lunch_Clear_spec lo
  exact ⟨e, d, a, fun t ht => (c t ht).1, f, g⟩

theorem tally_Clear_fresh (ot : OfficeTallyModel) : ot.Clear.Fresh := by
  obtain ⟨a, b, c, d, e, f, _⟩ := tally_Clear_spec ot
  exact ⟨d, c, a, b, e, f⟩

theorem tally_Focus_submitted (ot : OfficeTallyModel) : ot.Focus.submitted = ot.submitted := by
  unfold OfficeTallyModel.Focus
  split <;> rfl

theorem initialModel_inv (E : Env) (d : E.DB) : (initialModel E d).Inv := by
  refine ⟨lunch_New_inv, rfl, rfl, fun _ => ?_, fun _ => ?_⟩
  · refine ⟨rfl, rfl, rfl, ?_, rfl, rfl⟩
    intro t ht
    simp only [initialModel, NewLunchOrderModel, List.mem_map] at ht
    obtain ⟨_, _, rfl⟩ := ht
    rfl
  · exact ⟨rfl, rfl, rfl, rfl, rfl, rfl⟩

theorem dispatch_inv (E : Env) (m : model E) (msg : Msg) (hi : m.Inv) :
    ∃ m1, model.dispatch E m msg = some m1 ∧ m1.Inv := by
  obtain ⟨hL, hsl, hst, hfl, hft⟩ := hi
  cases hv : m.currentView with
  | viewHome =>
    have hlf := hfl (by rw [hv]; decide)
    have htf := hft (by rw [hv]; decide)
    have hFocus : m.lunchOrder.Focus =
        some { m.lunchOrder with restaurantInput := m.lunchOrder.restaurantInput.Focus } := by
      simp [LunchOrderModel.Focus, hlf.1]
    rw [dispatch_home E m msg hv, hFocus]
    simp only [Option.some_bind]
    split_ifs
    · exact ⟨_, rfl, hL, hsl, hst, fun h => absurd rfl h, fun _ => htf⟩
    · refine ⟨_, rfl, hL, hsl, ?_, fun _ => hlf, fun h => absurd rfl h⟩
      show m.officeTally.Focus.submitted = false
      rw [tally_Focus_submitted]; exact hst
    · exact ⟨_, rfl, hL, hsl, hst, fun _ => hlf, fun _ => htf⟩
    · exact ⟨_, rfl, hL, hsl, hst, fun _ => hlf, fun _ => htf⟩
  | viewLunchOrder =>
    have htf := hft (by rw [hv]; decide)
    obtain ⟨lo, hlo, hiLo⟩ := lunch_Update_inv E.edit m.lunchOrder msg hL
    by_cases hsub : lo.IsSubmitted = true
    · obtain ⟨s, hs⟩ := SubmittedMetadata_some lo hiLo.1
      rw [dispatch_lunch_submitted E m msg lo s hv hlo hsub hs]
      exact ⟨_, rfl, lunch_Clear_inv lo hiLo.1, rfl, hst, fun _ => lunch_Clear_fresh lo,
        fun _ => htf⟩
    · have hsub2 : lo.IsSubmitted = false := by simpa using hsub
      rw [dispatch_lunch_pending E m msg lo hv hlo hsub2]
      refine ⟨_, rfl, hiLo, hsub2, hst, fun h => ?_, fun _ => htf⟩
      exact absurd hv h
  | viewOfficeTally =>
    have hlf := hfl (by rw [hv]; decide)
    by_cases hsub : (m.officeTally.Update E.edit msg).IsSubmitted = true
    · rw [dispatch_tally_submitted E m msg hv hsub]
      refine ⟨_, rfl, hL, hsl, ?_, fun _ => hlf, fun h => absurd rfl h⟩
      show (m.officeTally.Update E.edit msg).Clear.Focus.submitted = false
      rw [tally_Focus_submitted]; rfl
    · have hsub2 : (m.officeTally.Update E.edit msg).IsSubmitted = false := by simpa using hsub
      rw [dispatch_tally_pending E m msg hv hsub2]
      refine ⟨_, rfl, hL, hsl, hsub2, fun _ => hlf, fun h => ?_⟩
      exact absurd hv h

theorem model_Update_inv (E : Env) (m : model E) (msg : Msg) (hi : m.Inv) :
    ∃ m1, m.Update E msg = some m1 ∧ m1.Inv := by
  by_cases hq : msg = .key "ctrl+c"
  · exact ⟨m, by simp [model.Update, hq], hi⟩
  · by_cases he : msg = .key "esc"
    · obtain ⟨hL, hsl, hst, hfl, hft⟩ := hi
      cases hv : m.currentView with
      | viewHome =>
        have hU : m.Update E msg = model.dispatch E m msg := by
          simp [model.Update, he, hv]
        rw [hU]
        exact dispatch_inv E m msg ⟨hL, hsl, hst, hfl, hft⟩
      | viewLunchOrder =>
        have htf := hft (by rw [hv]; decide)
        refine ⟨{ m with
            lunchOrder := m.lunchOrder.Clear
            currentView := .viewHome
            home := E.homeClear m.home }, by simp [model.Update, he, hv],
          lunch_Clear_inv _ hL.1, rfl, hst, fun _ => lunch_Clear_fresh _, fun _ => htf⟩
      | viewOfficeTally =>
        have hlf := hfl (by rw [hv]; decide)
        refine ⟨{ m with
            officeTally := m.officeTally.Clear
            currentView := .viewHome
            home := E.homeClear m.home }, by simp [model.Update, he, hv],
          hL, hsl, rfl, fun _ => hlf, fun _ => tally_Clear_fresh _⟩
    · rw [Update_eq_dispatch E m msg hq he]
      exact dispatch_inv E m msg hi

theorem model_run_inv (E : Env) (msgs : List Msg) (m : model E) (hi : m.Inv) :
    ∃ m1, model.run E m msgs = some m1 ∧ m1.Inv := by
  induction msgs generalizing m with
  | nil => exact ⟨m, rfl, hi⟩
  | cons msg rest ih =>
    obtain ⟨m1, h1, hi1⟩ := model_Update_inv E m msg hi
    obtain ⟨m2, h2, hi2⟩ := ih m1 hi1
    exact ⟨m2, by simp [model.run, h1, h2], hi2⟩

/-! ## C11 -/

/-- C11: when a message reaches the active form (it is not ctrl+c or esc) and
the form reports a submission, `model.Update` returns a state, whatever the
insert answers. The insert is called on the database with exactly the
form's `SubmittedRestaurant` and `SubmittedMetadata` (or `SubmittedTally`);
when it fails with an error, that error is stored in `err`, and when it
succeeds `err` is untouched; the form session and the current view after the
event do not depend on the outcome: the lunch-order form is cleared with the
view at Home, the tally form is cleared and focused with the view kept. -/
theorem insert_gets_the_submission (E : Env) (m : model E) (msg : Msg)
    (hq : msg ≠ .key "ctrl+c") (he : msg ≠ .key "esc") :
    (m.currentView = .viewLunchOrder →
      ∀ lo s, m.lunchOrder.Update E.edit msg = some lo → lo.IsSubmitted = true →
        lo.SubmittedMetadata = some s →
        ∃ m1, m.Update E msg = some m1 ∧
          m1.database = (db.InsertLunchOrder E m.database
            { IID := 0, SRestaurant := lo.SubmittedRestaurant, JMetadata := s,
              BIsDeleted := false }).1 ∧
          (∀ e, (db.InsertLunchOrder E m.database
              { IID := 0, SRestaurant := lo.SubmittedRestaurant, JMetadata := s,
                BIsDeleted := false }).2 = .error e → m1.err = some e) ∧
          (∀ n, (db.InsertLunchOrder E m.database
              { IID := 0, SRestaurant := lo.SubmittedRestaurant, JMetadata := s,
                BIsDeleted := false }).2 = .ok n → m1.err = m.err) ∧
          m1.lunchOrder = lo.Clear ∧ m1.currentView = .viewHome ∧
          m1.officeTally = m.officeTally) ∧
    (m.currentView = .viewOfficeTally →
      (m.officeTally.Update E.edit msg).IsSubmitted = true →
        ∃ m1, m.Update E msg = some m1 ∧
          m1.database = (db.InsertOfficeTally E m.database
            { IID := 0
              SRestaurant := (m.officeTally.Update E.edit msg).SubmittedRestaurant
              ITally := (m.officeTally.Update E.edit msg).SubmittedTally
              BIsDeleted := false }).1 ∧
          (∀ e, (db.InsertOfficeTally E m.database
              { IID := 0
                SRestaurant := (m.officeTally.Update E.edit msg).SubmittedRestaurant
                ITally := (m.officeTally.Update E.edit msg).SubmittedTally
                BIsDeleted := false }).2 = .error e → m1.err = some e) ∧
          (∀ n, (db.InsertOfficeTally E m.database
              { IID := 0
                SRestaurant := (m.officeTally.Update E.edit msg).SubmittedRestaurant
                ITally := (m.officeTally.Update E.edit msg).SubmittedTally
                BIsDeleted := false }).2 = .ok n → m1.err = m.err) ∧
          m1.officeTally = (m.officeTally.Update E.edit msg).Clear.Focus ∧
          m1.currentView = .viewOfficeTally ∧ m1.lunchOrder = m.lunchOrder) := by
  rw [Update_eq_dispatch E m msg hq he]
  constructor
  · intro hv lo s hlo hsub hs
    rw [dispatch_lunch_submitted E m msg lo s hv hlo hsub hs]
    refine ⟨_, rfl, rfl, ?_, ?_, rfl, rfl, rfl⟩
    · intro e h
      show (match (db.InsertLunchOrder E m.database
          { IID := 0, SRestaurant := lo.SubmittedRestaurant, JMetadata := s,
            BIsDeleted := false }).2 with
        | .error e => some e
        | .ok _ => m.err) = some e
      rw [h]
    · intro n h
      show (match (db.InsertLunchOrder E m.database
          { IID := 0, SRestaurant := lo.SubmittedRestaurant, JMetadata := s,
            BIsDeleted := false }).2 with
        | .error e => some e
        | .ok _ => m.err) = m.err
      rw [h]
  · intro hv hsub
    rw [dispatch_tally_submitted E m msg hv hsub]
    refine ⟨_, rfl, rfl, ?_, ?_, rfl, rfl, rfl⟩
    · intro e h
      show (match (db.InsertOfficeTally E m.database
          { IID := 0
            SRestaurant := (m.officeTally.Update E.edit msg).SubmittedRestaurant
            ITally := (m.officeTally.Update E.edit msg).SubmittedTally
            BIsDeleted := false }).2 with
        | .error e => some e
        | .ok _ => m.err) = some e
      rw [h]
    · intro n h
      show (match (db.InsertOfficeTally E m.database
          { IID := 0
            SRestaurant := (m.officeTally.Update E.edit msg).SubmittedRestaurant
            ITally := (m.officeTally.Update E.edit msg).SubmittedTally
            BIsDeleted := false }).2 with
        | .error e => some e
        | .ok _ => m.err) = m.err
      rw [h]

/-- C11, witness: over a database that refuses every statement, submitting the
lunch order "Torched Hop" and the tally "Deli" / 12 stores the error, records
the statement with the submitted values, and resets the form as on success. -/
theorem insert_gets_the_submission_witness :
    (∃ m1, lunchAtLastFieldFailing.Update failingEnv (.key "enter") = some m1 ∧
      m1.database =
        [("INSERT INTO lunchorder (srestaurant, jmetadata, dtcreatedon, bisdeleted) VALUES (?, ?, ?, ?)",
          [.text "Torched Hop", .text "", .text "2024-01-01T00:00:00Z", .int 0])] ∧
      m1.err = some "database is locked" ∧
      m1.lunchOrder = lunchAtLastField.lunchOrder.Clear ∧ m1.currentView = .viewHome) ∧
    (∃ m1, tallyReadyFailing.Update failingEnv (.key "enter") = some m1 ∧
      m1.database =
        [("INSERT INTO officetally (srestaurant, itally, dtcreatedon, bisdeleted) VALUES (?, ?, ?, ?)",
          [.text "Deli", .int 12, .text "2024-01-01T00:00:00Z", .int 0])] ∧
      m1.err = some "database is locked" ∧ m1.currentView = .viewOfficeTally) := by
  have h := insert_gets_the_submission failingEnv lunchAtLastFieldFailing (.key "enter")
    (by decide) (by decide)
  have g := insert_gets_the_submission failingEnv tallyReadyFailing (.key "enter")
    (by decide) (by decide)
  obtain ⟨m1, h1, h2, h3, _, h5, h6, _⟩ := h.1 rfl
    { lunchAtLastField.lunchOrder with submitted := true } "" (by decide) rfl (by decide)
  obtain ⟨m2, g1, g2, g3, _, _, g6, _⟩ := g.2 rfl (by decide)
  refine ⟨⟨m1, h1, ?_, h3 "database is locked" rfl, ?_, h6⟩,
    ⟨m2, g1, ?_, g3 "database is locked" rfl, g6⟩⟩
  · rw [h2]; rfl
  · rw [h5]; rfl
  · rw [g2]; rfl

/-! ## C12 -/

/-- C12: on the lunch-order form and on the office-tally form, `model.Update`
on the esc key returns a state whose view is Home and in which the session of
that form is the cleared one (phase 0, empty restaurant and buffers,
`submitted = false`); the database and the stored error are untouched (no
insert) and the session of the other form is unchanged. -/
theorem esc_resets_the_form (E : Env) (m : model E) :
    (m.currentView = .viewLunchOrder →
      ∃ m1, m.Update E (.key "esc") = some m1 ∧ m1.currentView = .viewHome ∧
        m1.lunchOrder = m.lunchOrder.Clear ∧ m1.lunchOrder.phase = 0 ∧
        m1.lunchOrder.restaurant = "" ∧ m1.lunchOrder.restaurantInput.Value = "" ∧
        (∀ t ∈ m1.lunchOrder.metadataInputs, t.Value = "") ∧
        m1.lunchOrder.submitted = false ∧
        m1.database = m.database ∧ m1.err = m.err ∧ m1.officeTally = m.officeTally) ∧
    (m.currentView = .viewOfficeTally →
      ∃ m1, m.Update E (.key "esc") = some m1 ∧ m1.currentView = .viewHome ∧
        m1.officeTally = m.officeTally.Clear ∧ m1.officeTally.phase = 0 ∧
        m1.officeTally.restaurant = "" ∧ m1.officeTally.restaurantInput.Value = "" ∧
        m1.officeTally.tallyInput.Value = "" ∧ m1.officeTally.submitted = false ∧
        m1.database = m.database ∧ m1.err = m.err ∧ m1.lunchOrder = m.lunchOrder) := by
  constructor
  · intro hv
    obtain ⟨hp, hr, ha, hb, _, hs⟩ := lunch_Clear_fresh m.lunchOrder
    exact ⟨{ m with
        lunchOrder := m.lunchOrder.Clear
        currentView := .viewHome
        home := E.homeClear m.home }, by simp [model.Update, hv], rfl, rfl, hp, hr, ha, hb, hs,
      rfl, rfl, rfl⟩
  · intro hv
    obtain ⟨hp, hr, ha, hb, _, hs⟩ := tally_Clear_fresh m.officeTally
    exact ⟨{ m with
        officeTally := m.officeTally.Clear
        currentView := .viewHome
        home := E.homeClear m.home }, by simp [model.Update, hv], rfl, rfl, hp, hr, ha, hb, hs,
      rfl, rfl, rfl⟩

/-- C12, witness: esc on the lunch-order form with "Torched Hop" captured and
on the tally form with "Deli" captured leads to Home with the form cleared and
nothing inserted. -/
theorem esc_resets_the_form_witness :
    (∃ m1, lunchAtLastField.Update demoEnv (.key "esc") = some m1 ∧
      m1.currentView = .viewHome ∧ m1.lunchOrder.phase = 0 ∧
      m1.lunchOrder.restaurant = "" ∧ m1.database = []) ∧
    (∃ m1, tallyReady.Update demoEnv (.key "esc") = some m1 ∧
      m1.currentView = .viewHome ∧ m1.officeTally.phase = 0 ∧
      m1.officeTally.restaurant = "" ∧ m1.database = []) := by
  obtain ⟨m1, h1, h2, _, h4, h5, _, _, _, h9, _⟩ :=
    (esc_resets_the_form demoEnv lunchAtLastField).1 rfl
  obtain ⟨m2, g1, g2, _, g4, g5, _, _, _, g9, _⟩ :=
    (esc_resets_the_form demoEnv tallyReady).2 rfl
  exact ⟨⟨m1, h1, h2, h4, h5, h9⟩, ⟨m2, g1, g2, g4, g5, g9⟩⟩

theorem run_inv_of_eq (E : Env) (d : E.DB) (msgs : List Msg) (m : model E)
    (hr : model.run E (initialModel E d) msgs = some m) : m.Inv := by
  obtain ⟨m1, h1, hi⟩ := model_run_inv E msgs (initialModel E d) (initialModel_inv E d)
  rw [hr] at h1
  cases h1
  exact hi

/-! ## C13 -/

/-- C13: in a state reached from `initialModel` whose view is Home, let a
message other than ctrl+c be handled and let the home menu report its choice
after it. If the choice is "Post your own lunch order" the new view is the
lunch-order form, in phase 0 with its restaurant input focused; if it is
"Post the office tally" the new view is the office-tally form, in phase 0 with
its restaurant input focused; for any other choice, or none, the view stays
Home. -/
theorem home_choice_opens_the_form (E : Env) (d : E.DB) (msgs : List Msg) (m : model E)
    (hr : model.run E (initialModel E d) msgs = some m) (hv : m.currentView = .viewHome)
    (msg : Msg) (hq : msg ≠ .key "ctrl+c") :
    ∃ m1, m.Update E msg = some m1 ∧
      (E.homeChoice (E.homeUpdate m.home msg) = "Post your own lunch order" →
        m1.currentView = .viewLunchOrder ∧ m1.lunchOrder.phase = 0 ∧
        m1.lunchOrder.restaurantInput.focus = true) ∧
      (E.homeChoice (E.homeUpdate m.home msg) = "Post the office tally" →
        m1.currentView = .viewOfficeTally ∧ m1.officeTally.phase = 0 ∧
        m1.officeTally.restaurantInput.focus = true) ∧
      (E.homeChoice (E.homeUpdate m.home msg) ≠ "Post your own lunch order" →
        E.homeChoice (E.homeUpdate m.home msg) ≠ "Post the office tally" →
        m1.currentView = .viewHome) := by
  obtain ⟨_, _, _, hfl, hft⟩ := run_inv_of_eq E d msgs m hr
  have hlf := hfl (by rw [hv]; decide)
  have htf := hft (by rw [hv]; decide)
  have hU : m.Update E msg = model.dispatch E m msg := by
    by_cases he : msg = .key "esc"
    · simp [model.Update, he, hv]
    · exact Update_eq_dispatch E m msg hq he
  have hFocus : m.lunchOrder.Focus =
      some { m.lunchOrder with restaurantInput := m.lunchOrder.restaurantInput.Focus } := by
    simp [LunchOrderModel.Focus, hlf.1]
  have hTF : m.officeTally.Focus =
      { m.officeTally with restaurantInput := m.officeTally.restaurantInput.Focus } := by
    simp [OfficeTallyModel.Focus, htf.1]
  have hne : ("Post the office tally" : String) ≠ "Post your own lunch order" := by decide
  rw [hU, dispatch_home E m msg hv, hFocus, hTF]
  simp only [Option.some_bind]
  by_cases h1 : E.homeChoice (E.homeUpdate m.home msg) = "Post your own lunch order"
  · rw [if_pos h1]
    refine ⟨_, rfl, fun _ => ⟨rfl, hlf.1, rfl⟩, fun h2 => ?_, fun h => absurd h1 h⟩
    rw [h1] at h2
    exact absurd h2.symm hne
  · rw [if_neg h1]
    by_cases h2 : E.homeChoice (E.homeUpdate m.home msg) = "Post the office tally"
    · rw [if_pos h2]
      exact ⟨_, rfl, fun h => absurd h h1, fun _ => ⟨rfl, htf.1, rfl⟩, fun _ h => absurd h2 h⟩
    · rw [if_neg h2]
      by_cases h3 : E.homeChoice (E.homeUpdate m.home msg) ≠ ""
      · rw [if_pos h3]
        exact ⟨_, rfl, fun h => absurd h h1, fun h => absurd h h2, fun _ _ => hv⟩
      · rw [if_neg h3]
        exact ⟨_, rfl, fun h => absurd h h1, fun h => absurd h h2, fun _ _ => hv⟩

/-- C13, witness: on start, enter chooses "Post your own lunch order" and
opens the lunch-order form with the restaurant input focused; after "down",
which chooses nothing, the view is still Home. -/
theorem home_choice_opens_the_form_witness :
    (∃ m1, (initialModel demoEnv []).Update demoEnv (.key "enter") = some m1 ∧
      m1.currentView = .viewLunchOrder ∧ m1.lunchOrder.phase = 0 ∧
      m1.lunchOrder.restaurantInput.focus = true) ∧
    (∃ m1, (initialModel demoEnv []).Update demoEnv (.key "down") = some m1 ∧
      m1.currentView = .viewHome) := by
  obtain ⟨m1, h1, h2, _, _⟩ := home_choice_opens_the_form demoEnv [] [] (initialModel demoEnv [])
    rfl rfl (.key "enter") (by decide)
  obtain ⟨m2, g1, _, _, g4⟩ := home_choice_opens_the_form demoEnv [] [] (initialModel demoEnv [])
    rfl rfl (.key "down") (by decide)
  exact ⟨⟨m1, h1, h2 (by decide)⟩, ⟨m2, g1, g4 (by decide) (by decide)⟩⟩

/-! ## Lemmas on slices -/

theorem sliceApply_spec {α : Type} (xs : List α) (i : Int) (f : α → α)
    (h0 : 0 ≤ i) (h1 : i < xs.length) :
    ∃ x, xs[i.toNat]? = some x ∧ sliceApply xs i f = some (xs.set i.toNat (f x)) := by
  have hlt : i.toNat < xs.length := by omega
  have hn : ¬ i < 0 := by omega
  refine ⟨xs[i.toNat], List.getElem?_eq_getElem hlt, ?_⟩
  simp [sliceApply, sliceGet, hn, List.getElem?_eq_getElem hlt]

theorem map_set_same {α β : Type} (g : α → β) (xs : List α) (n : Nat) (x y : α)
    (hx : xs[n]? = some x) (hg : g y = g x) : (xs.set n y).map g = xs.map g := by
  apply List.ext_getElem?
  intro j
  rw [List.getElem?_map, List.getElem?_map, List.getElem?_set]
  by_cases hj : n = j
  · subst hj
    have hlt : n < xs.length := by
      by_contra hge
      rw [List.getElem?_eq_none (by omega)] at hx
      cases hx
    simp [hlt, hx, hg]
  · simp [hj]

/-! ## C14 -/

/-- C14: for both forms, in phase 0 with a restaurant buffer that is not empty
(and, for the lunch-order form, its five metadata inputs), `Update` on the
enter key yields a session in phase 1 whose captured restaurant is the value of
the buffer exactly, whose restaurant input is blurred, whose first detail
field (`metadataInputs[0]`, or the tally input) is focused, with the
`submitted` flag as it was. -/
theorem enter_on_restaurant_advances (ed : Editor) :
    (∀ m : LunchOrderModel, m.phase = 0 → m.restaurantInput.Value ≠ "" →
      m.metadataInputs.length = 5 →
      ∃ m1, m.Update ed (.key "enter") = some m1 ∧ m1.phase = 1 ∧
        m1.restaurant = m.restaurantInput.Value ∧ m1.restaurantInput.focus = false ∧
        (m1.metadataInputs[0]?).map (fun t => t.focus) = some true ∧
        m1.submitted = m.submitted) ∧
    (∀ m : OfficeTallyModel, m.phase = 0 → m.restaurantInput.Value ≠ "" →
      (m.Update ed (.key "enter")).phase = 1 ∧
        (m.Update ed (.key "enter")).restaurant = m.restaurantInput.Value ∧
        (m.Update ed (.key "enter")).restaurantInput.focus = false ∧
        (m.Update ed (.key "enter")).tallyInput.focus = true ∧
        (m.Update ed (.key "enter")).submitted = m.submitted) := by
  constructor
  · intro m hp hv hl
    obtain ⟨x, hx, hy⟩ := sliceApply_spec m.metadataInputs 0 TextInput.Focus (le_refl 0)
      (by rw [hl]; norm_num)
    refine ⟨{ m with
        restaurant := m.restaurantInput.Value
        phase := 1
        restaurantInput := m.restaurantInput.Blur
        metadataInputs := m.metadataInputs.set 0 x.Focus }, ?_, rfl, rfl, rfl, ?_, rfl⟩
    · simp only [LunchOrderModel.Update, if_true, hp, hv, if_false, hy, Option.some_bind]
      rfl
    · have hlt : 0 < m.metadataInputs.length := by rw [hl]; norm_num
      simp [List.getElem?_set, hlt, TextInput.Focus]
  · intro m hp hv
    simp [OfficeTallyModel.Update, hp, hv, TextInput.Blur, TextInput.Focus]

/-- C14, witness: the fresh sessions of both forms with "Deli" typed into the
restaurant buffer. -/
theorem enter_on_restaurant_advances_witness :
    (∃ m1, LunchOrderModel.Update lineEdit
        { NewLunchOrderModel with
          restaurantInput := { value := "Deli", pos := 4, focus := true, CharLimit := 156 } }
        (.key "enter") = some m1 ∧ m1.phase = 1 ∧ m1.restaurant = "Deli" ∧
        m1.restaurantInput.focus = false ∧
        (m1.metadataInputs[0]?).map (fun t => t.focus) = some true ∧
        m1.submitted = false) ∧
    ((OfficeTallyModel.Update lineEdit
        { NewOfficeTallyModel with
          restaurantInput := { value := "Deli", pos := 4, focus := true, CharLimit := 256 } }
        (.key "enter")).phase = 1 ∧
      (OfficeTallyModel.Update lineEdit
        { NewOfficeTallyModel with
          restaurantInput := { value := "Deli", pos := 4, focus := true, CharLimit := 256 } }
        (.key "enter")).restaurant = "Deli") :=
  ⟨(enter_on_restaurant_advances lineEdit).1
      { NewLunchOrderModel with
        restaurantInput := { value := "Deli", pos := 4, focus := true, CharLimit := 156 } }
      rfl (by decide) (by decide),
    ((enter_on_restaurant_advances lineEdit).2
      { NewOfficeTallyModel with
        restaurantInput := { value := "Deli", pos := 4, focus := true, CharLimit := 256 } }
      rfl (by decide)).1,
    ((enter_on_restaurant_advances lineEdit).2
      { NewOfficeTallyModel with
        restaurantInput := { value := "Deli", pos := 4, focus := true, CharLimit := 256 } }
      rfl (by decide)).2.1⟩

/-! ## C15 -/

/-- C15: in phase 1 with the focus on the final field (`focusIndex` is the
number of metadata inputs minus one, 4 for the five inputs), whatever the
fields contain, `Update` on the enter key yields the same session with
`submitted = true`: restaurant, phase, `focusIndex` and all inputs are
unchanged. -/
theorem enter_on_last_field_submits (ed : Editor) (m : LunchOrderModel)
    (hp : m.phase = 1) (hf : m.focusIndex = (m.metadataInputs.length : Int) - 1) :
    m.Update ed (.key "enter") = some { m with submitted := true } ∧
    ∃ m1, m.Update ed (.key "enter") = some m1 ∧ m1.submitted = true ∧
      m1.restaurant = m.restaurant ∧ m1.phase = m.phase ∧
      m1.focusIndex = m.focusIndex ∧ m1.metadataInputs = m.metadataInputs ∧
      m1.restaurantInput = m.restaurantInput := by
  have hp0 : ¬ m.phase = 0 := by rw [hp]; decide
  have hlast : ¬ m.focusIndex < (m.metadataInputs.length : Int) - 1 := by omega
  have h : m.Update ed (.key "enter") = some { m with submitted := true } := by
    simp only [LunchOrderModel.Update, if_true, hp0, if_false, hlast]
  exact ⟨h, _, h, rfl, rfl, rfl, rfl, rfl, rfl⟩

/-- C15, witness: restaurant "Torched Hop" with the five fields empty and the
last one focused is submitted with restaurant "Torched Hop" and absent
metadata. -/
theorem enter_on_last_field_submits_witness :
    ∃ m1, lunchAtLastField.lunchOrder.Update lineEdit (.key "enter") = some m1 ∧
      m1.submitted = true ∧ m1.SubmittedRestaurant = "Torched Hop" ∧
      m1.SubmittedMetadata = some "" := by
  obtain ⟨h, _⟩ := enter_on_last_field_submits lineEdit lunchAtLastField.lunchOrder rfl
    (by decide)
  exact ⟨_, h, rfl, rfl, by decide⟩

/-! ## Lemmas on the navigation between the metadata fields -/

theorem sliceGet_eq {α : Type} (xs : List α) (i : Int) (h0 : 0 ≤ i) :
    sliceGet xs i = xs[i.toNat]? := by
  have hn : ¬ i < 0 := by omega
  simp [sliceGet, hn]

theorem lunch_moveFocus_spec (m : LunchOrderModel) (delta : Int)
    (h0 : 0 ≤ m.focusIndex) (h1 : m.focusIndex < m.metadataInputs.length)
    (h2 : 0 ≤ m.focusIndex + delta) (h3 : m.focusIndex + delta < m.metadataInputs.length) :
    ∃ m1, m.moveFocus delta = some m1 ∧
      m1.focusIndex = m.focusIndex + delta ∧ m1.phase = m.phase ∧
      m1.restaurant = m.restaurant ∧ m1.submitted = m.submitted ∧
      m1.restaurantInput = m.restaurantInput ∧
      m1.metadataInputs.length = m.metadataInputs.length ∧
      m1.metadataInputs.map (fun t => t.Value) = m.metadataInputs.map (fun t => t.Value) ∧
      (delta ≠ 0 →
        (sliceGet m1.metadataInputs m.focusIndex).map (fun t => t.focus) = some false) ∧
      (sliceGet m1.metadataInputs (m.focusIndex + delta)).map (fun t => t.focus) = some true := by
  obtain ⟨x, hx, hy⟩ := sliceApply_spec m.metadataInputs m.focusIndex TextInput.Blur h0 h1
  obtain ⟨y, hy1, hz⟩ := sliceApply_spec (m.metadataInputs.set m.focusIndex.toNat x.Blur)
    (m.focusIndex + delta) TextInput.Focus h2 (by simpa using h3)
  have hlt1 : m.focusIndex.toNat < m.metadataInputs.length := by omega
  have hlt2 : (m.focusIndex + delta).toNat < m.metadataInputs.length := by omega
  refine ⟨{ m with
      metadataInputs :=
        (m.metadataInputs.set m.focusIndex.toNat x.Blur).set (m.focusIndex + delta).toNat y.Focus
      focusIndex := m.focusIndex + delta }, ?_, rfl, rfl, rfl, rfl, rfl, by simp, ?_, ?_, ?_⟩
  · simp [LunchOrderModel.moveFocus, hy, hz]
  · show List.map (fun t => t.Value)
        ((m.metadataInputs.set m.focusIndex.toNat x.Blur).set
          (m.focusIndex + delta).toNat y.Focus) = _
    rw [map_set_same (fun t : TextInput => t.Value) _ _ y y.Focus hy1 rfl,
      map_set_same (fun t : TextInput => t.Value) _ _ x x.Blur hx rfl]
  · intro hd
    have hne : (m.focusIndex + delta).toNat ≠ m.focusIndex.toNat := by omega
    rw [sliceGet_eq _ _ h0]
    show Option.map (fun t => t.focus)
        ((m.metadataInputs.set m.focusIndex.toNat x.Blur).set
          (m.focusIndex + delta).toNat y.Focus)[m.focusIndex.toNat]? = _
    rw [List.getElem?_set_ne hne, List.getElem?_set_self hlt1]
    rfl
  · rw [sliceGet_eq _ _ h2]
    show Option.map (fun t => t.focus)
        ((m.metadataInputs.set m.focusIndex.toNat x.Blur).set
          (m.focusIndex + delta).toNat y.Focus)[(m.focusIndex + delta).toNat]? = _
    rw [List.getElem?_set_self (by simpa using hlt2)]
    rfl

theorem lunch_Update_forward (ed : Editor) (m : LunchOrderModel) (hp : m.phase = 1) :
    (m.Update ed (.key "enter") =
      if m.focusIndex < (m.metadataInputs.length : Int) - 1 then m.moveFocus 1
      else some { m with submitted := true }) ∧
    (m.Update ed (.key "down") =
      if m.focusIndex < (m.metadataInputs.length : Int) - 1 then m.moveFocus 1
      else m.updateActiveInput ed (.key "down")) ∧
    (m.Update ed (.key "tab") =
      if m.focusIndex < (m.metadataInputs.length : Int) - 1 then m.moveFocus 1
      else m.updateActiveInput ed (.key "tab")) ∧
    (m.Update ed (.key "up") =
      if m.focusIndex > 0 then m.moveFocus (-1) else m.updateActiveInput ed (.key "up")) ∧
    (m.Update ed (.key "shift+tab") =
      if m.focusIndex > 0 then m.moveFocus (-1)
      else m.updateActiveInput ed (.key "shift+tab")) := by
  have hp0 : ¬ m.phase = 0 := by rw [hp]; decide
  refine ⟨?_, ?_, ?_, ?_, ?_⟩ <;>
    simp [LunchOrderModel.Update, hp, hp0]

/-! ## C16 -/

/-- C16: in phase 1, with the focus index on one of the metadata inputs, the
keys "down" and "tab" set `focusIndex` to `focusIndex + 1` when it is below the
last index and leave it unchanged on the last one; the keys "up" and
"shift+tab" set it to `focusIndex - 1` when it is above 0 and leave it
unchanged at 0 (no wrap-around); and when the focus moves, the field that was
focused is blurred and the target field is focused. -/
theorem navigation_keys_clamped (ed : Editor) (m : LunchOrderModel) (hp : m.phase = 1)
    (h0 : 0 ≤ m.focusIndex) (h1 : m.focusIndex < m.metadataInputs.length) :
    (∀ k, k = "down" ∨ k = "tab" →
      ∃ m1, m.Update ed (.key k) = some m1 ∧
        (m.focusIndex < (m.metadataInputs.length : Int) - 1 →
          m1.focusIndex = m.focusIndex + 1 ∧
          (sliceGet m1.metadataInputs m.focusIndex).map (fun t => t.focus) = some false ∧
          (sliceGet m1.metadataInputs m1.focusIndex).map (fun t => t.focus) = some true) ∧
        (m.focusIndex = (m.metadataInputs.length : Int) - 1 →
          m1.focusIndex = m.focusIndex)) ∧
    (∀ k, k = "up" ∨ k = "shift+tab" →
      ∃ m1, m.Update ed (.key k) = some m1 ∧
        (m.focusIndex > 0 →
          m1.focusIndex = m.focusIndex - 1 ∧
          (sliceGet m1.metadataInputs m.focusIndex).map (fun t => t.focus) = some false ∧
          (sliceGet m1.metadataInputs m1.focusIndex).map (fun t => t.focus) = some true) ∧
        (m.focusIndex = 0 → m1.focusIndex = m.focusIndex)) := by
  obtain ⟨_, hdown, htab, hup, hstab⟩ := lunch_Update_forward ed m hp
  constructor
  · intro k hk
    have hU : m.Update ed (.key k) =
        if m.focusIndex < (m.metadataInputs.length : Int) - 1 then m.moveFocus 1
        else m.updateActiveInput ed (.key k) := by
      rcases hk with rfl | rfl
      · exact hdown
      · exact htab
    by_cases hlt : m.focusIndex < (m.metadataInputs.length : Int) - 1
    · obtain ⟨m1, hm, hfi, _, _, _, _, _, _, hb, hf⟩ :=
        lunch_moveFocus_spec m 1 h0 h1 (by omega) (by omega)
      refine ⟨m1, by rw [hU, if_pos hlt, hm], fun _ => ⟨hfi, hb (by decide), ?_⟩,
        fun h => by omega⟩
      rw [hfi]; exact hf
    · obtain ⟨m1, hm, _, hfi, _⟩ := lunch_updateActiveInput_some ed m (.key k) h0 h1
      exact ⟨m1, by rw [hU, if_neg hlt, hm], fun h => absurd h hlt, fun _ => hfi⟩
  · intro k hk
    have hU : m.Update ed (.key k) =
        if m.focusIndex > 0 then m.moveFocus (-1) else m.updateActiveInput ed (.key k) := by
      rcases hk with rfl | rfl
      · exact hup
      · exact hstab
    by_cases hgt : m.focusIndex > 0
    · obtain ⟨m1, hm, hfi, _, _, _, _, _, _, hb, hf⟩ :=
        lunch_moveFocus_spec m (-1) h0 h1 (by omega) (by omega)
      refine ⟨m1, by rw [hU, if_pos hgt, hm], fun _ => ⟨hfi, hb (by decide), ?_⟩,
        fun h => by omega⟩
      rw [hfi]; exact hf
    · obtain ⟨m1, hm, _, hfi, _⟩ := lunch_updateActiveInput_some ed m (.key k) h0 h1
      exact ⟨m1, by rw [hU, if_neg hgt, hm], fun h => absurd h hgt, fun _ => hfi⟩

/-- C16, witness: on the last of the five fields "down" keeps the focus index
at 4 and "up" moves it to 3, blurring field 4 and focusing field 3. -/
theorem navigation_keys_clamped_witness :
    (∃ m1, lunchAtLastField.lunchOrder.Update lineEdit (.key "down") = some m1 ∧
      m1.focusIndex = 4) ∧
    (∃ m1, lunchAtLastField.lunchOrder.Update lineEdit (.key "up") = some m1 ∧
      m1.focusIndex = 3 ∧
      (sliceGet m1.metadataInputs 4).map (fun t => t.focus) = some false ∧
      (sliceGet m1.metadataInputs 3).map (fun t => t.focus) = some true) := by
  have h := navigation_keys_clamped lineEdit lunchAtLastField.lunchOrder rfl
    (by decide) (by decide)
  obtain ⟨m1, hm, _, hk⟩ := h.1 "down" (Or.inl rfl)
  obtain ⟨m2, hm2, hk2, _⟩ := h.2 "up" (Or.inl rfl)
  have h3 := hk2 (by decide)
  refine ⟨⟨m1, hm, hk (by decide)⟩, ⟨m2, hm2, h3.1, h3.2.1, ?_⟩⟩
  have h4 := h3.2.2
  rw [h3.1] at h4
  exact h4

/-! ## C17 -/

/-- C17: in phase 1 on a field that is not the final one, `Update` on the enter
key returns exactly the session that `Update` returns on the "down" key and on
the "tab" key: the focus index advances by one, `submitted`, the phase, the
restaurant and the content of every field stay as they were. -/
theorem enter_is_down_before_last (ed : Editor) (m : LunchOrderModel) (hp : m.phase = 1)
    (h0 : 0 ≤ m.focusIndex) (h1 : m.focusIndex < (m.metadataInputs.length : Int) - 1) :
    m.Update ed (.key "enter") = m.Update ed (.key "down") ∧
    m.Update ed (.key "enter") = m.Update ed (.key "tab") ∧
    ∃ m1, m.Update ed (.key "enter") = some m1 ∧
      m1.focusIndex = m.focusIndex + 1 ∧ m1.submitted = m.submitted ∧
      m1.phase = m.phase ∧ m1.restaurant = m.restaurant ∧
      m1.restaurantInput = m.restaurantInput ∧
      m1.metadataInputs.map (fun t => t.Value) = m.metadataInputs.map (fun t => t.Value) := by
  obtain ⟨henter, hdown, htab, _, _⟩ := lunch_Update_forward ed m hp
  rw [if_pos h1] at henter hdown htab
  obtain ⟨m1, hm, hfi, hph, hr, hs, hri, _, hv, _, _⟩ :=
    lunch_moveFocus_spec m 1 h0 (by omega) (by omega) (by omega)
  exact ⟨by rw [henter, hdown], by rw [henter, htab], m1, by rw [henter, hm], hfi, hs, hph, hr,
    hri, hv⟩

/-- C17, witness: on the first metadata field of a session with restaurant
"Deli", enter, "down" and "tab" all give the session focused on field 1. -/
theorem enter_is_down_before_last_witness :
    LunchOrderModel.Update lineEdit
        { NewLunchOrderModel with phase := 1, restaurant := "Deli" } (.key "enter")
      = LunchOrderModel.Update lineEdit
        { NewLunchOrderModel with phase := 1, restaurant := "Deli" } (.key "down") ∧
    ∃ m1, LunchOrderModel.Update lineEdit
        { NewLunchOrderModel with phase := 1, restaurant := "Deli" } (.key "enter") = some m1 ∧
      m1.focusIndex = 1 ∧ m1.submitted = false := by
  obtain ⟨h1, _, m1, hm, hfi, hs, _⟩ := enter_is_down_before_last lineEdit
    { NewLunchOrderModel with phase := 1, restaurant := "Deli" } rfl (by decide) (by decide)
  exact ⟨h1, m1, hm, hfi, hs⟩

/-! ## C18 -/

/-- C18: for both forms and every key that is not a control key of the form
("enter", and for the lunch-order form "up", "down", "tab", "shift+tab"),
`Update` hands the key to the active input only: the restaurant input in
phase 0, `metadataInputs[focusIndex]` (the focus index pointing at one of the
inputs) or the tally input otherwise. The phase, the captured restaurant, the
focus index, the stored tally, the `submitted` flag and every other input are
unchanged. -/
theorem other_keys_reach_active_input_only (ed : Editor) (k : String) (hk : k ≠ "enter") :
    (∀ m : LunchOrderModel, k ≠ "up" → k ≠ "down" → k ≠ "tab" → k ≠ "shift+tab" →
      (m.phase = 0 ∨ (0 ≤ m.focusIndex ∧ m.focusIndex < m.metadataInputs.length)) →
      ∃ m1, m.Update ed (.key k) = some m1 ∧
        m1.phase = m.phase ∧ m1.restaurant = m.restaurant ∧
        m1.focusIndex = m.focusIndex ∧ m1.submitted = m.submitted ∧
        (m.phase = 0 →
          m1.restaurantInput = m.restaurantInput.Update ed (.key k) ∧
          m1.metadataInputs = m.metadataInputs) ∧
        (m.phase ≠ 0 →
          m1.restaurantInput = m.restaurantInput ∧
          m1.metadataInputs.length = m.metadataInputs.length ∧
          m1.metadataInputs[m.focusIndex.toNat]? =
            (m.metadataInputs[m.focusIndex.toNat]?).map (fun t => t.Update ed (.key k)) ∧
          ∀ j : Nat, j ≠ m.focusIndex.toNat → m1.metadataInputs[j]? = m.metadataInputs[j]?)) ∧
    (∀ m : OfficeTallyModel,
      (m.Update ed (.key k)).phase = m.phase ∧
      (m.Update ed (.key k)).restaurant = m.restaurant ∧
      (m.Update ed (.key k)).tally = m.tally ∧
      (m.Update ed (.key k)).submitted = m.submitted ∧
      (m.phase = 0 →
        (m.Update ed (.key k)).restaurantInput = m.restaurantInput.Update ed (.key k) ∧
        (m.Update ed (.key k)).tallyInput = m.tallyInput) ∧
      (m.phase ≠ 0 →
        (m.Update ed (.key k)).tallyInput = m.tallyInput.Update ed (.key k) ∧
        (m.Update ed (.key k)).restaurantInput = m.restaurantInput)) := by
  constructor
  · intro m h1 h2 h3 h4 hwf
    have hU : m.Update ed (.key k) = m.updateActiveInput ed (.key k) := by
      simp [LunchOrderModel.Update, hk, h1, h2, h3, h4]
    rw [hU]
    by_cases hp : m.phase = 0
    · refine ⟨{ m with restaurantInput := m.restaurantInput.Update ed (.key k) },
        by simp [LunchOrderModel.updateActiveInput, hp], rfl, rfl, rfl, rfl,
        fun _ => ⟨rfl, rfl⟩, fun h => absurd hp h⟩
    · rcases hwf with h | ⟨hf0, hf1⟩
      · exact absurd h hp
      · obtain ⟨x, hx, hy⟩ := sliceApply_spec m.metadataInputs m.focusIndex
          (fun t => t.Update ed (.key k)) hf0 hf1
        have hlt : m.focusIndex.toNat < m.metadataInputs.length := by omega
        refine ⟨{ m with
            metadataInputs := m.metadataInputs.set m.focusIndex.toNat (x.Update ed (.key k)) },
          by simp [LunchOrderModel.updateActiveInput, hp, hy], rfl, rfl, rfl, rfl,
          fun h => absurd h hp, fun _ => ⟨rfl, by simp, ?_, ?_⟩⟩
        · show (m.metadataInputs.set m.focusIndex.toNat (x.Update ed (.key k)))[
            m.focusIndex.toNat]? = _
          rw [List.getElem?_set_self hlt, hx]
          rfl
        · intro j hj
          exact List.getElem?_set_ne (Ne.symm hj)
  · intro m
    have hU : m.Update ed (.key k) = m.updateActiveInput ed (.key k) := by
      simp [OfficeTallyModel.Update, hk]
    rw [hU]
    by_cases hp : m.phase = 0
    · simp [OfficeTallyModel.updateActiveInput, hp]
    · simp [OfficeTallyModel.updateActiveInput, hp]

/-- C18, witness: the key "x" on a lunch-order session in phase 1 focused on
field 4 and on a tally session in phase 1 changes neither the phase nor the
`submitted` flag. -/
theorem other_keys_reach_active_input_only_witness :
    (∃ m1, lunchAtLastField.lunchOrder.Update lineEdit (.key "x") = some m1 ∧
      m1.phase = 1 ∧ m1.restaurant = "Torched Hop" ∧ m1.focusIndex = 4 ∧
      m1.submitted = false) ∧
    (tallyReady.officeTally.Update lineEdit (.key "x")).phase = 1 ∧
    (tallyReady.officeTally.Update lineEdit (.key "x")).submitted = false := by
  have h := other_keys_reach_active_input_only lineEdit "x" (by decide)
  obtain ⟨m1, hm, a, b, c, d, _⟩ := h.1 lunchAtLastField.lunchOrder (by decide) (by decide)
    (by decide) (by decide) (Or.inr ⟨by decide, by decide⟩)
  have g := h.2 tallyReady.officeTally
  exact ⟨⟨m1, hm, a, b, c, d⟩, g.1, g.2.2.2.1⟩

/-! ## C19 -/

theorem dispatch_database (E : Env) (m m1 : model E) (msg : Msg) (hL : m.lunchOrder.Inv)
    (h : model.dispatch E m msg = some m1) :
    m1.database = m.database ∨
    (m.currentView = .viewLunchOrder ∧
      ∃ lo s, m.lunchOrder.Update E.edit msg = some lo ∧ lo.submitted = true ∧
        lo.SubmittedMetadata = some s ∧
        m1.database = (db.InsertLunchOrder E m.database
          { IID := 0, SRestaurant := lo.SubmittedRestaurant, JMetadata := s,
            BIsDeleted := false }).1) ∨
    (m.currentView = .viewOfficeTally ∧
      (m.officeTally.Update E.edit msg).submitted = true ∧
      m1.database = (db.InsertOfficeTally E m.database
        { IID := 0
          SRestaurant := (m.officeTally.Update E.edit msg).SubmittedRestaurant
          ITally := (m.officeTally.Update E.edit msg).SubmittedTally
          BIsDeleted := false }).1) := by
  cases hv : m.currentView with
  | viewHome =>
    left
    rw [dispatch_home E m msg hv] at h
    cases hF : m.lunchOrder.Focus with
    | none =>
      rw [hF] at h
      split_ifs at h <;> first | (cases h; rfl) | (simp at h)
    | some lo =>
      rw [hF] at h
      split_ifs at h <;> (cases h; rfl)
  | viewLunchOrder =>
    obtain ⟨lo, hlo, hiLo⟩ := lunch_Update_inv E.edit m.lunchOrder msg hL
    by_cases hsub : lo.IsSubmitted = true
    · obtain ⟨s, hs⟩ := SubmittedMetadata_some lo hiLo.1
      rw [dispatch_lunch_submitted E m msg lo s hv hlo hsub hs] at h
      cases h
      exact Or.inr (Or.inl ⟨rfl, lo, s, hlo, hsub, hs, rfl⟩)
    · have hsub2 : lo.IsSubmitted = false := by simpa using hsub
      rw [dispatch_lunch_pending E m msg lo hv hlo hsub2] at h
      cases h
      exact Or.inl rfl
  | viewOfficeTally =>
    by_cases hsub : (m.officeTally.Update E.edit msg).IsSubmitted = true
    · rw [dispatch_tally_submitted E m msg hv hsub] at h
      cases h
      exact Or.inr (Or.inr ⟨rfl, hsub, rfl⟩)
    · have hsub2 : (m.officeTally.Update E.edit msg).IsSubmitted = false := by simpa using hsub
      rw [dispatch_tally_pending E m msg hv hsub2] at h
      cases h
      exact Or.inl rfl

theorem Update_database (E : Env) (m m1 : model E) (msg : Msg) (hL : m.lunchOrder.Inv)
    (h : m.Update E msg = some m1) :
    m1.database = m.database ∨
    (m.currentView = .viewLunchOrder ∧
      ∃ lo s, m.lunchOrder.Update E.edit msg = some lo ∧ lo.submitted = true ∧
        lo.SubmittedMetadata = some s ∧
        m1.database = (db.InsertLunchOrder E m.database
          { IID := 0, SRestaurant := lo.SubmittedRestaurant, JMetadata := s,
            BIsDeleted := false }).1) ∨
    (m.currentView = .viewOfficeTally ∧
      (m.officeTally.Update E.edit msg).submitted = true ∧
      m1.database = (db.InsertOfficeTally E m.database
        { IID := 0
          SRestaurant := (m.officeTally.Update E.edit msg).SubmittedRestaurant
          ITally := (m.officeTally.Update E.edit msg).SubmittedTally
          BIsDeleted := false }).1) := by
  by_cases hq : msg = .key "ctrl+c"
  · have hU : m.Update E msg = some m := by simp [model.Update, hq]
    rw [hU] at h
    cases h
    exact Or.inl rfl
  · by_cases he : msg = .key "esc"
    · cases hv : m.currentView with
      | viewHome =>
        have hU : m.Update E msg = model.dispatch E m msg := by
          simp [model.Update, he, hv]
        rw [hU] at h
        have := dispatch_database E m m1 msg hL h
        rwa [hv] at this
      | viewLunchOrder =>
        have hU : m.Update E msg = some { m with
            lunchOrder := m.lunchOrder.Clear
            currentView := .viewHome
            home := E.homeClear m.home } := by simp [model.Update, he, hv]
        rw [hU] at h
        cases h
        exact Or.inl rfl
      | viewOfficeTally =>
        have hU : m.Update E msg = some { m with
            officeTally := m.officeTally.Clear
            currentView := .viewHome
            home := E.homeClear m.home } := by simp [model.Update, he, hv]
        rw [hU] at h
        cases h
        exact Or.inl rfl
    · rw [Update_eq_dispatch E m msg hq he] at h
      exact dispatch_database E m m1 msg hL h

/-- C19: every finite sequence of messages from `initialModel` is handled to
its end, and in the state reached neither form session has
`submitted = true`. For every further message `model.Update` returns a state
in which again neither session is submitted, and the database is either
untouched or has received one insert, namely of the values of the session
that the active form returned as submitted for this very message: a
submission is handed to the store and the form reset within the event that
produced it. -/
theorem no_submission_outlives_its_event (E : Env) (d : E.DB) (msgs : List Msg) :
    ∃ m, model.run E (initialModel E d) msgs = some m ∧
      m.lunchOrder.submitted = false ∧ m.officeTally.submitted = false ∧
      ∀ msg, ∃ m1, m.Update E msg = some m1 ∧
        m1.lunchOrder.submitted = false ∧ m1.officeTally.submitted = false ∧
        (m1.database = m.database ∨
          (m.currentView = .viewLunchOrder ∧
            ∃ lo s, m.lunchOrder.Update E.edit msg = some lo ∧ lo.submitted = true ∧
              lo.SubmittedMetadata = some s ∧
              m1.database = (db.InsertLunchOrder E m.database
                { IID := 0, SRestaurant := lo.SubmittedRestaurant, JMetadata := s,
                  BIsDeleted := false }).1) ∨
          (m.currentView = .viewOfficeTally ∧
            (m.officeTally.Update E.edit msg).submitted = true ∧
            m1.database = (db.InsertOfficeTally E m.database
              { IID := 0
                SRestaurant := (m.officeTally.Update E.edit msg).SubmittedRestaurant
                ITally := (m.officeTally.Update E.edit msg).SubmittedTally
                BIsDeleted := false }).1)) := by
  obtain ⟨m, hm, hi⟩ := model_run_inv E msgs (initialModel E d) (initialModel_inv E d)
  refine ⟨m, hm, hi.2.1, hi.2.2.1, ?_⟩
  intro msg
  obtain ⟨m1, h1, hi1⟩ := model_Update_inv E m msg hi
  exact ⟨m1, h1, hi1.2.1, hi1.2.2.1, Update_database E m m1 msg hi.1 h1⟩

/-! ## C20 -/

/-- C20: in every state reached from `initialModel` whose view is Home, both
form sessions are in their initial logical state: phase 0, no captured
restaurant, empty restaurant and detail buffers, focus index 0, stored tally 0
and `submitted = false`. -/
theorem home_view_has_fresh_forms (E : Env) (d : E.DB) (msgs : List Msg) (m : model E)
    (hr : model.run E (initialModel E d) msgs = some m) (hv : m.currentView = .viewHome) :
    (m.lunchOrder.phase = 0 ∧ m.lunchOrder.restaurant = "" ∧
      m.lunchOrder.restaurantInput.Value = "" ∧
      (∀ t ∈ m.lunchOrder.metadataInputs, t.Value = "") ∧
      m.lunchOrder.metadataInputs.length = 5 ∧
      m.lunchOrder.focusIndex = 0 ∧ m.lunchOrder.submitted = false) ∧
    (m.officeTally.phase = 0 ∧ m.officeTally.restaurant = "" ∧
      m.officeTally.restaurantInput.Value = "" ∧ m.officeTally.tallyInput.Value = "" ∧
      m.officeTally.tally = 0 ∧ m.officeTally.submitted = false) := by
  obtain ⟨hL, _, _, hfl, hft⟩ := run_inv_of_eq E d msgs m hr
  obtain ⟨a, b, c, e, f, g⟩ := hfl (by rw [hv]; decide)
  exact ⟨⟨a, b, c, e, hL.1, f, g⟩, hft (by rw [hv]; decide)⟩

/-- C20, witness: entering the lunch-order form, typing "D", advancing, typing
"8" and leaving with esc gives the Home view with both forms fresh. -/
theorem home_view_has_fresh_forms_witness :
    ∃ m, model.run demoEnv (initialModel demoEnv [])
        [.key "enter", .key "D", .key "enter", .key "8", .key "esc"] = some m ∧
      m.currentView = .viewHome ∧ m.lunchOrder.phase = 0 ∧ m.lunchOrder.restaurant = "" ∧
      m.lunchOrder.restaurantInput.Value = "" ∧
      (∀ t ∈ m.lunchOrder.metadataInputs, t.Value = "") ∧ m.officeTally.phase = 0 := by
  obtain ⟨m, hm, _⟩ := model_run_inv demoEnv
    [.key "enter", .key "D", .key "enter", .key "8", .key "esc"] (initialModel demoEnv [])
    (initialModel_inv demoEnv [])
  have hview : (model.run demoEnv (initialModel demoEnv [])
      [.key "enter", .key "D", .key "enter", .key "8", .key "esc"]).map
        (fun m => m.currentView) = some .viewHome := by decide
  rw [hm] at hview
  have hv : m.currentView = .viewHome := by simpa using hview
  obtain ⟨⟨a, b, c, e, _⟩, ⟨f, _⟩⟩ := home_view_has_fresh_forms demoEnv [] _ m hm hv
  exact ⟨m, hm, hv, a, b, c, e, f⟩

end Tui
